import Mathlib

/-!
Verification of the `whatsmyip` discovery engine (`src/lib.rs`) against its
specification.  The Rust source is shallowly embedded below:

* the address parser `ip_from_str` and the standard-library IP parsers and
  printers it delegates to (`Ipv4Addr::from_str`, `Ipv6Addr::from_str`,
  `Display for Ipv4Addr/Ipv6Addr`) are embedded as executable functions over
  `List Char` / `String`;
* the discovery engine `WhatsMyIp::find` is embedded as a function of the
  configuration together with the outcomes of its external collaborators
  (the IGD gateway lookup and each HTTP probe in post-shuffle order), since
  those collaborators are opaque network calls.
-/

namespace WhatsMyIpModel

/-! ## Character-level helpers (Rust `char` methods used by the parsers) -/

/-- Embedding of Rust `char::to_digit(radix)`: decimal digits, then lowercase
and uppercase letters with values 10..35, accepted only when below `radix`. -/
def charToDigit (radix : Nat) (c : Char) : Option Nat :=
  let v :=
    if 48 ≤ c.toNat ∧ c.toNat ≤ 57 then some (c.toNat - 48)
    else if 97 ≤ c.toNat ∧ c.toNat ≤ 122 then some (c.toNat - 87)
    else if 65 ≤ c.toNat ∧ c.toNat ≤ 90 then some (c.toNat - 55)
    else none
  match v with
  | some d => if d < radix then some d else none
  | none => none

/-- Embedding of Rust `char::from_digit` as used by integer formatting:
digit characters `'0'..'9'` then lowercase `'a'..` for values 10 and up. -/
def rustDigitChar (d : Nat) : Char :=
  if d < 10 then Char.ofNat (48 + d) else Char.ofNat (87 + d)

/-- Unicode `White_Space` code points, the set trimmed by Rust `str::trim`
(via `char::is_whitespace`). -/
def isRustWhitespace (c : Char) : Bool :=
  decide (c.toNat = 9 ∨ c.toNat = 10 ∨ c.toNat = 11 ∨ c.toNat = 12 ∨ c.toNat = 13 ∨
    c.toNat = 32 ∨ c.toNat = 133 ∨ c.toNat = 160 ∨ c.toNat = 5760 ∨
    (8192 ≤ c.toNat ∧ c.toNat ≤ 8202) ∨ c.toNat = 8232 ∨ c.toNat = 8233 ∨
    c.toNat = 8239 ∨ c.toNat = 8287 ∨ c.toNat = 12288)

/-- Embedding of Rust `str::trim`: drop whitespace from both ends. -/
def rustTrim (s : String) : List Char :=
  ((s.toList.dropWhile fun c => isRustWhitespace c).reverse.dropWhile
    fun c => isRustWhitespace c).reverse

/-! ## The standard-library IP address parser

`Ipv4Addr::from_str` and `Ipv6Addr::from_str` both dispatch to the parser in
`core::net::parser`.  Its `Parser` state is a byte cursor with backtracking
(`read_atomically`); we embed each reader as a function from the remaining
input to `Option (value × remaining input)`, which restores the input on
failure by construction. -/

/-- Digit-consuming loop inside `Parser::read_number`: repeatedly read a digit
in `radix` and fold it into the accumulator.  Rust accumulates into a machine
integer with `checked_mul`/`checked_add`, failing the whole read on overflow;
`cap` is the maximum value of that integer type, and the two checked steps
fail exactly when `acc * radix + d > cap`.  Reading more than `maxDigits`
digits also fails the whole read.  Returns the value, the number of digits
consumed, and the remaining input. -/
def readDigits (radix cap : Nat) (maxDigits : Option Nat) :
    List Char → Nat → Nat → Option (Nat × Nat × List Char)
  | [], acc, count => some (acc, count, [])
  | c :: rest, acc, count =>
    match charToDigit radix c with
    | none => some (acc, count, c :: rest)
    | some d =>
      if acc * radix + d > cap then none
      else if maxDigits.elim false fun m => decide (count + 1 > m) then none
      else readDigits radix cap maxDigits rest (acc * radix + d) (count + 1)

/-- Embedding of `Parser::read_number(radix, max_digits, allow_zero_prefix)`:
at least one digit is required, and a leading zero followed by further digits
is rejected unless `allowLeadingZeros` is set. -/
def readNumber (radix cap : Nat) (maxDigits : Option Nat) (allowLeadingZeros : Bool)
    (input : List Char) : Option (Nat × List Char) :=
  match readDigits radix cap maxDigits input 0 0 with
  | none => none
  | some (v, count, rest) =>
    if count = 0 then none
    else if allowLeadingZeros = false ∧ input.head? = some '0' ∧ 1 < count then none
    else some (v, rest)

/-- Embedding of `Parser::read_given_char`: consume exactly the character `c`. -/
def expectChar (c : Char) (input : List Char) : Option (List Char) :=
  match input with
  | d :: rest => if d = c then some rest else none
  | [] => none

/-- Embedding of `Parser::read_separator(':', index, inner)`: every group but
the first is preceded by a `':'`. -/
def readSep {α : Type} (first : Bool) (inner : List Char → Option (α × List Char))
    (input : List Char) : Option (α × List Char) :=
  if first then inner input
  else
    match expectChar ':' input with
    | none => none
    | some rest => inner rest

/-- An IPv4 address: four octets, as in Rust `Ipv4Addr` (four `u8`). -/
structure Ipv4Addr where
  a : Fin 256
  b : Fin 256
  c : Fin 256
  d : Fin 256
deriving DecidableEq

/-- Embedding of `Parser::read_ipv4_addr`: four dot-separated decimal octets,
each read with `read_number(10, Some(3), false)` into a `u8` (so values above
255 overflow and fail, and leading zeros are rejected).  The final bounds
check is Rust's `u8` typing made explicit; `readNumber` with `cap = 255`
never exceeds it. -/
def readIpv4 (input : List Char) : Option (Ipv4Addr × List Char) :=
  match readNumber 10 255 (some 3) false input with
  | none => none
  | some (a, r1) =>
    match expectChar '.' r1 with
    | none => none
    | some r1' =>
      match readNumber 10 255 (some 3) false r1' with
      | none => none
      | some (b, r2) =>
        match expectChar '.' r2 with
        | none => none
        | some r2' =>
          match readNumber 10 255 (some 3) false r2' with
          | none => none
          | some (c, r3) =>
            match expectChar '.' r3 with
            | none => none
            | some r3' =>
              match readNumber 10 255 (some 3) false r3' with
              | none => none
              | some (d, r4) =>
                if h : a < 256 ∧ b < 256 ∧ c < 256 ∧ d < 256 then
                  some (⟨⟨a, h.1⟩, ⟨b, h.2.1⟩, ⟨c, h.2.2.1⟩, ⟨d, h.2.2.2⟩⟩, r4)
                else none

/-- Embedding of `Ipv4Addr::from_str`: run the reader and require that the
whole input is consumed (`Parser::parse_with` checks for end of input). -/
def ipv4FromStr (l : List Char) : Option Ipv4Addr :=
  match readIpv4 l with
  | some (x, []) => some x
  | _ => none

/-- The 16-bit group formed by the first two octets of an embedded IPv4
address, as in `u16::from_be_bytes([one, two])`. -/
def Ipv4Addr.hiGroup (x : Ipv4Addr) : Nat := x.a.val * 256 + x.b.val

/-- The 16-bit group formed by the last two octets of an embedded IPv4
address, as in `u16::from_be_bytes([three, four])`. -/
def Ipv4Addr.loGroup (x : Ipv4Addr) : Nat := x.c.val * 256 + x.d.val

/-- An IPv6 address: eight 16-bit groups, as in Rust `Ipv6Addr`
(`[u16; 8]` segments). -/
structure Ipv6Addr where
  segs : List Nat
  valid : segs.length = 8 ∧ ∀ s ∈ segs, s < 65536

instance : DecidableEq Ipv6Addr := fun x y =>
  if h : x.segs = y.segs then
    isTrue (by cases x; cases y; simp only at h; simp [h])
  else
    isFalse (by intro hh; exact h (congrArg Ipv6Addr.segs hh))

/-- Embedding of the `read_groups` helper inside `Parser::read_ipv6_addr`.
Rust fills a slot array of size `limit`; at slot `i` with at least two slots
remaining it first tries a trailing embedded IPv4 address (which fills two
groups and stops the loop with the `usedIpv4` flag), then reads a
`':'`-separated hexadecimal group via `read_number(16, Some(4), true)` into a
`u16`.  The first argument says whether we are at slot 0 (no separator); the
second is the number of slots remaining.  Returns the groups read, the
`usedIpv4` flag, and the remaining input. -/
def readGroups : Bool → Nat → List Char → List Nat × Bool × List Char
  | _, 0, input => ([], false, input)
  | first, n + 1, input =>
    match (if 1 ≤ n then readSep first readIpv4 input else none) with
    | some (x, rest) => ([x.hiGroup, x.loGroup], true, rest)
    | none =>
      match readSep first (readNumber 16 65535 (some 4) true) input with
      | none => ([], false, input)
      | some (g, rest) =>
        let t := readGroups false n rest
        (g :: t.1, t.2.1, t.2.2)

/-- Packaging of a parsed group list into an `Ipv6Addr`.  The check is Rust's
`[u16; 8]` typing made explicit: whenever the parser reaches this point the
list has length 8 and every group fits in a `u16`. -/
def mkIpv6OfList (segs : List Nat) : Option Ipv6Addr :=
  if h : segs.length = 8 ∧ ∀ s ∈ segs, s < 65536 then some ⟨segs, h⟩ else none

/-- Embedding of `Parser::read_ipv6_addr`: read up to eight head groups; a
full eight is a complete address; otherwise (unless the head ended in an
embedded IPv4 address) expect `"::"` and read tail groups limited to
`8 - (head + 1)` slots; the address is head groups, then zeros, then tail
groups. -/
def readIpv6 (input : List Char) : Option (Ipv6Addr × List Char) :=
  let h := readGroups true 8 input
  if h.1.length = 8 then
    match mkIpv6OfList h.1 with
    | some x => some (x, h.2.2)
    | none => none
  else if h.2.1 then none
  else
    match expectChar ':' h.2.2 with
    | none => none
    | some r1 =>
      match expectChar ':' r1 with
      | none => none
      | some r2 =>
        let limit := 8 - (h.1.length + 1)
        let t := readGroups true limit r2
        let segs := h.1 ++ List.replicate (8 - h.1.length - t.1.length) 0 ++ t.1
        match mkIpv6OfList segs with
        | some x => some (x, t.2.2)
        | none => none

/-- Embedding of `Ipv6Addr::from_str`: run the reader and require that the
whole input is consumed. -/
def ipv6FromStr (l : List Char) : Option Ipv6Addr :=
  match readIpv6 l with
  | some (x, []) => some x
  | _ => none

/-! ## The standard-library IP address printers -/

/-- Decimal rendering of an octet (Rust `Display` for `u8`): no leading
zeros, at most three digits for values below 1000. -/
def decRender (n : Nat) : List Char :=
  if n < 10 then [rustDigitChar n]
  else if n < 100 then [rustDigitChar (n / 10), rustDigitChar (n % 10)]
  else [rustDigitChar (n / 100), rustDigitChar (n / 10 % 10), rustDigitChar (n % 10)]

/-- Lowercase hexadecimal rendering of a 16-bit group (Rust `{:x}` for
`u16`): no leading zeros, at most four digits for values below 65536. -/
def hexRender (n : Nat) : List Char :=
  if n < 16 then [rustDigitChar n]
  else if n < 256 then [rustDigitChar (n / 16), rustDigitChar (n % 16)]
  else if n < 4096 then
    [rustDigitChar (n / 256), rustDigitChar (n / 16 % 16), rustDigitChar (n % 16)]
  else
    [rustDigitChar (n / 4096), rustDigitChar (n / 256 % 16), rustDigitChar (n / 16 % 16),
      rustDigitChar (n % 16)]

/-- Embedding of `Display for Ipv4Addr`: the dotted quad `a.b.c.d`. -/
def ipv4Render (x : Ipv4Addr) : List Char :=
  decRender x.a.val ++ '.' :: decRender x.b.val ++ '.' :: decRender x.c.val
    ++ '.' :: decRender x.d.val

/-- Groups joined by `':'`, continuation form: each group preceded by a
separator (the tail of `fmt_subslice` in `Display for Ipv6Addr`). -/
def groupsRenderTail : List Nat → List Char
  | [] => []
  | g :: rest => ':' :: (hexRender g ++ groupsRenderTail rest)

/-- Embedding of `fmt_subslice` in `Display for Ipv6Addr`: hexadecimal groups
joined by `':'`. -/
def groupsRender : List Nat → List Char
  | [] => []
  | g :: rest => hexRender g ++ groupsRenderTail rest

/-- A run of zero segments: starting index and length, as the `Span` struct
inside `Display for Ipv6Addr`. -/
structure Span where
  start : Nat
  len : Nat

/-- Embedding of the zero-run search in `Display for Ipv6Addr`: scan the
segments keeping the current run of zeros and the first strictly-longest run
seen so far. -/
def zeroSpanLoop : List Nat → Nat → Span → Span → Span
  | [], _, _, longest => longest
  | s :: rest, i, current, longest =>
    if s = 0 then
      let cur : Span := if current.len = 0 then ⟨i, 1⟩ else ⟨current.start, current.len + 1⟩
      let lng : Span := if cur.len > longest.len then cur else longest
      zeroSpanLoop rest (i + 1) cur lng
    else
      zeroSpanLoop rest (i + 1) ⟨0, 0⟩ longest

/-- Embedding of `Display for Ipv6Addr` (no width/precision set): an
IPv4-mapped address (`to_ipv4_mapped`, segments `[0,0,0,0,0,0xffff,g,h]`)
renders as `::ffff:` followed by the dotted quad of its low 32 bits;
otherwise the first longest zero run, when longer than one group, is elided
as `::` between the remaining groups; otherwise all eight groups are
rendered. -/
def ipv6Render (x : Ipv6Addr) : List Char :=
  if x.segs.take 6 = [0, 0, 0, 0, 0, 65535] then
    let g := x.segs.getD 6 0
    let h := x.segs.getD 7 0
    "::ffff:".toList ++ decRender (g / 256) ++ '.' :: decRender (g % 256)
      ++ '.' :: decRender (h / 256) ++ '.' :: decRender (h % 256)
  else
    let z := zeroSpanLoop x.segs 0 ⟨0, 0⟩ ⟨0, 0⟩
    if z.len > 1 then
      groupsRender (x.segs.take z.start) ++ ':' :: ':' ::
        groupsRender (x.segs.drop (z.start + z.len))
    else
      groupsRender x.segs

/-! ## The repository's data model (`src/lib.rs`) -/

/-- The `MyIp` enum of `src/lib.rs`: a tagged union of an IPv4 and an IPv6
address.  `derive(PartialEq)` in the source is structural equality, embedded
here as derived decidable equality. -/
inductive MyIp where
  | V4 : Ipv4Addr → MyIp
  | V6 : Ipv6Addr → MyIp
deriving DecidableEq

/-- Embedding of `impl fmt::Display for MyIp`: delegate to the standard
renderer of the wrapped address. -/
def MyIp.render : MyIp → List Char
  | .V4 ip => ipv4Render ip
  | .V6 ip => ipv6Render ip

/-- Embedding of `ip_from_str` (`src/lib.rs` lines 45-56): trim the input,
try an IPv4 parse, on failure try an IPv6 parse, and if both fail report
`"Invalid IP address {input}"` naming the original input. -/
def ip_from_str (ip_s : String) : Except String MyIp :=
  let ip_trimmed := rustTrim ip_s
  match ipv4FromStr ip_trimmed with
  | some ip => .ok (MyIp.V4 ip)
  | none =>
    match ipv6FromStr ip_trimmed with
    | some ip => .ok (MyIp.V6 ip)
    | none => .error ("Invalid IP address " ++ ip_s)

/-! ## The discovery engine (`src/lib.rs`) -/

/-- A provider's probe behavior: the registry pairs every URL with the
function `http_ip_txt` (`type Provider = (&str, fn(&WhatsMyIp, &str) -> ...)`). -/
inductive ProbeKind where
  | ipTxt
deriving DecidableEq

/-- The static `HTTP_PROVIDERS` registry: an ordered, immutable list of
(URL, probe behavior) pairs, fixed at build time. -/
def HTTP_PROVIDERS : List (String × ProbeKind) :=
  [("http://icanhazip.com", .ipTxt),
   ("http://myip.dnsomatic.com", .ipTxt),
   ("http://bot.whatismyipaddress.com/", .ipTxt),
   ("https://api.ipify.org?format=text", .ipTxt)]

/-- The `WhatsMyIp` configuration struct: `igd`, `fast`, `http` (the HTTP
provider limit) and `http_timeout` (a duration, modelled as milliseconds). -/
structure WhatsMyIp where
  igd : Bool
  fast : Bool
  http : Nat
  http_timeout : Option Nat
deriving DecidableEq

/-- Embedding of `WhatsMyIp::new`: IGD enabled, fast mode disabled, HTTP
limit equal to the registry size, no timeout. -/
def WhatsMyIp.new : WhatsMyIp :=
  { igd := true, fast := false, http := HTTP_PROVIDERS.length, http_timeout := none }

/-- Embedding of the builder `WhatsMyIp::igd` (the field accessor takes the
plain name, hence the prime): store the flag. -/
def WhatsMyIp.igd' (w : WhatsMyIp) (enabled : Bool) : WhatsMyIp :=
  { w with igd := enabled }

/-- Embedding of the builder `WhatsMyIp::fast` (the field accessor takes the
plain name, hence the prime): store the flag. -/
def WhatsMyIp.fast' (w : WhatsMyIp) (enabled : Bool) : WhatsMyIp :=
  { w with fast := enabled }

/-- Embedding of the builder `WhatsMyIp::http_limit`: `Some num` stores
`min(num, HTTP_PROVIDERS.len())`, `None` resets to the registry size. -/
def WhatsMyIp.http_limit (w : WhatsMyIp) (count : Option Nat) : WhatsMyIp :=
  { w with http :=
      match count with
      | some num => min num HTTP_PROVIDERS.length
      | none => HTTP_PROVIDERS.length }

/-- Embedding of the builder `WhatsMyIp::http_timeout` (the field accessor
takes the plain name, hence the prime): store the timeout. -/
def WhatsMyIp.http_timeout' (w : WhatsMyIp) (t : Option Nat) : WhatsMyIp :=
  { w with http_timeout := t }

/-- Outcome of the external IGD collaborator: `igd::search_gateway()`
followed, on success, by `gw.get_external_ip()`.  The crate only ever
reports an IPv4 address. -/
def GatewayOutcome : Type := Except String (Except String Ipv4Addr)

/-- Embedding of `igd_ip` (`src/lib.rs` lines 76-89): a successful gateway
search and external-address query yields `Some(MyIp::V4(ip))`; any failure at
either step is logged and yields `None`. -/
def igd_ip (gw : GatewayOutcome) : Option MyIp :=
  match gw with
  | .ok (.ok ip) => some (MyIp.V4 ip)
  | .ok (.error _) => none
  | .error _ => none

instance {ε α : Type} [DecidableEq ε] [DecidableEq α] : DecidableEq (Except ε α) := fun x y =>
  match x, y with
  | .error a, .error b => decidable_of_iff (a = b) (by simp)
  | .ok a, .ok b => decidable_of_iff (a = b) (by simp)
  | .error _, .ok _ => isFalse (by intro h; cases h)
  | .ok _, .error _ => isFalse (by intro h; cases h)

/-- What the HTTP transport did for one probe: hyper's
`Client::get(url).send()` either fails or yields a response with a status
code and a body-read outcome (`read_to_string`). -/
structure HttpResponse where
  status : Nat
  body : Except String String
deriving DecidableEq

/-- Rendering of a hyper status code, as in `format!("{}", res.status)`.
Hyper renders the numeric code followed by its canonical reason phrase; the
reason-phrase table is external to this repository, so the embedding keeps
the part that identifies the status: the numeric code. -/
def statusDisplay (code : Nat) : String := toString code

/-- Embedding of `http_ip_txt` (`src/lib.rs` lines 58-74): a transport
failure is an error; a status other than `200 OK` is an error carrying the
status; a body-read failure is an error; otherwise the body is handed to
`ip_from_str`. -/
def http_ip_txt (_opts : WhatsMyIp) (_url : String)
    (send : Except String HttpResponse) : Except String MyIp :=
  match send with
  | .error err => .error err
  | .ok res =>
    if res.status ≠ 200 then .error (statusDisplay res.status)
    else
      match res.body with
      | .error err => .error err
      | .ok s => ip_from_str s

/-- The HTTP phase of `WhatsMyIp::find`: iterate the consulted providers'
probe outcomes in post-shuffle order.  A failed probe is logged and skipped;
a successful probe's address is appended unless already present
(`results.contains`); with `fast` set the loop returns right after a
successful probe.  Returns the final result list, whether the loop returned
early, and how many probes were invoked. -/
def findHttp (fast : Bool) (results : List MyIp) :
    List (Except String MyIp) → List MyIp × Bool × Nat
  | [] => (results, false, 0)
  | o :: rest =>
    match o with
    | .error _ =>
      let t := findHttp fast results rest
      (t.1, t.2.1, t.2.2 + 1)
    | .ok ip =>
      let results' := if results.contains ip then results else results ++ [ip]
      if fast then (results', true, 1)
      else
        let t := findHttp fast results' rest
        (t.1, t.2.1, t.2.2 + 1)

/-- Core of `WhatsMyIp::find` (`src/lib.rs` lines 175-219), instrumented.
The external collaborators are parameters: `gw` is what the IGD lookup
returns, and `outcomes` lists, provider by provider in post-shuffle order,
what that provider's probe function returns when invoked (one entry per
registry provider).  `find` invokes `igd_ip` unconditionally — the `igd`
configuration field is never read — then, when the limit is positive, runs
the HTTP loop over the first `http` shuffled providers.  Returns the result
list at the point of return, whether an early fast-mode return happened, and
the number of HTTP probes invoked. -/
def findCore (w : WhatsMyIp) (gw : GatewayOutcome)
    (outcomes : List (Except String MyIp)) : List MyIp × Bool × Nat :=
  match igd_ip gw with
  | some ip =>
    if w.fast then ([ip], true, 0)
    else if w.http > 0 then findHttp w.fast [ip] (outcomes.take w.http)
    else ([ip], false, 0)
  | none =>
    if w.http > 0 then findHttp w.fast [] (outcomes.take w.http)
    else ([], false, 0)

/-- Embedding of `WhatsMyIp::find`: run the phases; an early fast-mode
return yields the results directly; otherwise an empty result list is the
aggregate error `"Unable to find any IP address"` and a non-empty one is
returned. -/
def WhatsMyIp.find (w : WhatsMyIp) (gw : GatewayOutcome)
    (outcomes : List (Except String MyIp)) : Except String (List MyIp) :=
  let t := findCore w gw outcomes
  if t.2.1 then .ok t.1
  else if t.1.isEmpty then .error "Unable to find any IP address"
  else .ok t.1

/-- Number of HTTP probes `find` invokes (the instrumentation component of
`findCore`). -/
def WhatsMyIp.httpProbes (w : WhatsMyIp) (gw : GatewayOutcome)
    (outcomes : List (Except String MyIp)) : Nat :=
  (findCore w gw outcomes).2.2

/-! ## Specification-side descriptions of the result sequence -/

/-- The successful address of a probe outcome, if any. -/
def okOf : Except String MyIp → Option MyIp
  | .ok ip => some ip
  | .error _ => none

/-- Modelled from the spec: append each address in order unless an equal one
is already present (spec step 3c, "if the resulting address is not already
present in the result sequence, append it"). -/
def dedupAppend (acc : List MyIp) : List MyIp → List MyIp
  | [] => acc
  | ip :: rest => dedupAppend (if acc.contains ip then acc else acc ++ [ip]) rest

/-- Example IPv4 address 203.0.113.5 for concrete scenarios. -/
def exGwIp : Ipv4Addr := ⟨203, 0, 113, 5⟩

/-- Example IPv4 address 1.2.3.4 for concrete scenarios. -/
def exHttpIp : Ipv4Addr := ⟨1, 2, 3, 4⟩

/-- The IPv6-mapped form `::ffff:1.2.3.4` of 1.2.3.4. -/
def exMapped : Ipv6Addr := ⟨[0, 0, 0, 0, 0, 65535, 258, 772], by decide⟩

/-- Soundness of a span w.r.t. a segment list: it lies inside the list and
covers only zero segments. -/
def SpanZero (segs : List Nat) (sp : Span) : Prop :=
  sp.start + sp.len ≤ segs.length ∧ ∀ j < sp.len, segs[sp.start + j]? = some 0

/-- A character that can occur in a rendered address: a dot, a colon, or a
hexadecimal digit character. -/
def AddrChar (c : Char) : Prop :=
  c = '.' ∨ c = ':' ∨ ∃ d : Fin 16, c = rustDigitChar d.val

/-! ## Engine lemmas -/

theorem dedupAppend_prefix (acc : List MyIp) (l : List MyIp) :
    acc <+: dedupAppend acc l := by
  induction l generalizing acc with
  | nil => exact List.prefix_refl acc
  | cons ip rest ih =>
    simp only [dedupAppend]
    refine List.IsPrefix.trans ?_ (ih _)
    split
    · exact List.prefix_refl acc
    · exact ⟨[ip], rfl⟩

theorem dedupAppend_nodup (acc : List MyIp) (l : List MyIp) (h : acc.Nodup) :
    (dedupAppend acc l).Nodup := by
  induction l generalizing acc with
  | nil => exact h
  | cons ip rest ih =>
    simp only [dedupAppend]
    apply ih
    split
    · exact h
    · rename_i hc
      have : ip ∉ acc := by
        intro hm
        exact hc (List.elem_eq_true_of_mem hm)
      simp [List.nodup_append, h, this]

theorem dedupStep_ne_nil (results : List MyIp) (ip : MyIp) :
    (if results.contains ip then results else results ++ [ip]) ≠ [] := by
  cases results with
  | nil => simp
  | cons a l => split <;> simp

theorem findHttp_results (fast : Bool) (outs : List (Except String MyIp))
    (results : List MyIp) :
    (findHttp fast results outs).1 =
      dedupAppend results ((outs.take (findHttp fast results outs).2.2).filterMap okOf) := by
  induction outs generalizing results with
  | nil => simp [findHttp, dedupAppend]
  | cons o rest ih =>
    cases o with
    | error e =>
      simp only [findHttp, List.take_succ_cons, List.filterMap_cons, okOf]
      exact ih results
    | ok ip =>
      cases fast with
      | true => simp [findHttp, dedupAppend, okOf]
      | false =>
        simp only [findHttp, Bool.false_eq_true, if_false, List.take_succ_cons,
          List.filterMap_cons, okOf, dedupAppend]
        exact ih _

theorem findHttp_count_le (fast : Bool) (outs : List (Except String MyIp))
    (results : List MyIp) :
    (findHttp fast results outs).2.2 ≤ outs.length := by
  induction outs generalizing results with
  | nil => simp [findHttp]
  | cons o rest ih =>
    cases o with
    | error e =>
      simp only [findHttp, List.length_cons]
      exact Nat.succ_le_succ (ih results)
    | ok ip =>
      cases fast with
      | true => simp [findHttp]
      | false =>
        simp only [findHttp, Bool.false_eq_true, if_false, List.length_cons]
        exact Nat.succ_le_succ (ih _)

theorem findHttp_early_ne_nil (fast : Bool) (outs : List (Except String MyIp))
    (results : List MyIp) (h : (findHttp fast results outs).2.1 = true) :
    (findHttp fast results outs).1 ≠ [] := by
  induction outs generalizing results with
  | nil => simp [findHttp] at h
  | cons o rest ih =>
    cases o with
    | error e =>
      simp only [findHttp] at h ⊢
      exact ih results h
    | ok ip =>
      cases fast with
      | true =>
        simp only [findHttp, if_true]
        exact dedupStep_ne_nil results ip
      | false =>
        simp only [findHttp, Bool.false_eq_true, if_false] at h ⊢
        exact ih _ h

theorem findCore_results (w : WhatsMyIp) (gw : GatewayOutcome)
    (outs : List (Except String MyIp)) :
    (findCore w gw outs).1 =
      dedupAppend (igd_ip gw).toList
        ((outs.take (findCore w gw outs).2.2).filterMap okOf) := by
  have take_take : ∀ (fast : Bool) (results : List MyIp),
      ((outs.take w.http).take (findHttp fast results (outs.take w.http)).2.2).filterMap okOf =
      ((outs.take (findHttp fast results (outs.take w.http)).2.2).filterMap okOf) := by
    intro fast results
    have hle : (findHttp fast results (outs.take w.http)).2.2 ≤ w.http := by
      refine le_trans (findHttp_count_le _ _ _) ?_
      simp
    rw [List.take_take, Nat.min_eq_left hle]
  cases hgw : igd_ip gw with
  | some ip =>
    cases hf : w.fast with
    | true => simp [findCore, hgw, hf, dedupAppend]
    | false =>
      by_cases hh : w.http > 0
      · simp only [findCore, hgw, hf, Bool.false_eq_true, if_false, if_pos hh, Option.toList]
        rw [findHttp_results, take_take]
      · simp [findCore, hgw, hf, hh, dedupAppend]
  | none =>
    by_cases hh : w.http > 0
    · simp only [findCore, hgw, if_pos hh, Option.toList]
      rw [findHttp_results, take_take]
    · simp [findCore, hgw, hh, dedupAppend]

theorem findCore_nodup (w : WhatsMyIp) (gw : GatewayOutcome)
    (outs : List (Except String MyIp)) : (findCore w gw outs).1.Nodup := by
  rw [findCore_results]
  apply dedupAppend_nodup
  cases igd_ip gw <;> simp

theorem findCore_early_ne_nil (w : WhatsMyIp) (gw : GatewayOutcome)
    (outs : List (Except String MyIp)) (h : (findCore w gw outs).2.1 = true) :
    (findCore w gw outs).1 ≠ [] := by
  cases hgw : igd_ip gw with
  | some ip =>
    cases hf : w.fast with
    | true => simp [findCore, hgw, hf]
    | false =>
      by_cases hh : w.http > 0
      · simp only [findCore, hgw, hf, Bool.false_eq_true, if_false, if_pos hh] at h ⊢
        exact findHttp_early_ne_nil _ _ _ h
      · simp [findCore, hgw, hf, hh] at h
  | none =>
    by_cases hh : w.http > 0
    · simp only [findCore, hgw, if_pos hh] at h ⊢
      exact findHttp_early_ne_nil _ _ _ h
    · simp [findCore, hgw, hh] at h

theorem findCore_count_le (w : WhatsMyIp) (gw : GatewayOutcome)
    (outs : List (Except String MyIp)) :
    (findCore w gw outs).2.2 ≤ min w.http outs.length := by
  have hbase : ∀ (fast : Bool) (results : List MyIp),
      (findHttp fast results (outs.take w.http)).2.2 ≤ min w.http outs.length := by
    intro fast results
    refine le_trans (findHttp_count_le _ _ _) ?_
    simp [Nat.min_comm]
  cases hgw : igd_ip gw with
  | some ip =>
    cases hf : w.fast with
    | true => simp [findCore, hgw, hf]
    | false =>
      by_cases hh : w.http > 0
      · simp only [findCore, hgw, hf, Bool.false_eq_true, if_false, if_pos hh]
        exact hbase _ _
      · simp [findCore, hgw, hf, hh]
  | none =>
    by_cases hh : w.http > 0
    · simp only [findCore, hgw, if_pos hh]
      exact hbase _ _
    · simp [findCore, hgw, hh]

theorem httpProbes_of_http_zero (w : WhatsMyIp) (gw : GatewayOutcome)
    (outs : List (Except String MyIp)) (h : w.http = 0) :
    w.httpProbes gw outs = 0 := by
  have := findCore_count_le w gw outs
  unfold WhatsMyIp.httpProbes
  omega

theorem find_ok_iff (w : WhatsMyIp) (gw : GatewayOutcome)
    (outs : List (Except String MyIp)) (l : List MyIp) :
    w.find gw outs = .ok l ↔
      (findCore w gw outs).1 = l ∧ (findCore w gw outs).1 ≠ [] := by
  unfold WhatsMyIp.find
  by_cases he : (findCore w gw outs).2.1 = true
  · have hne := findCore_early_ne_nil w gw outs he
    simp [he, hne, eq_comm]
  · simp only [he, if_false]
    by_cases hemp : (findCore w gw outs).1.isEmpty
    · have : (findCore w gw outs).1 = [] := by simpa [List.isEmpty_iff] using hemp
      simp [hemp, this]
    · have : (findCore w gw outs).1 ≠ [] := by simpa [List.isEmpty_iff] using hemp
      simp [hemp, this, eq_comm]

theorem find_error_iff (w : WhatsMyIp) (gw : GatewayOutcome)
    (outs : List (Except String MyIp)) (e : String) :
    w.find gw outs = .error e ↔
      (findCore w gw outs).1 = [] ∧ e = "Unable to find any IP address" := by
  unfold WhatsMyIp.find
  by_cases he : (findCore w gw outs).2.1 = true
  · have hne := findCore_early_ne_nil w gw outs he
    simp [he, hne]
  · simp only [he, if_false]
    by_cases hemp : (findCore w gw outs).1.isEmpty
    · have : (findCore w gw outs).1 = [] := by simpa [List.isEmpty_iff] using hemp
      simp [hemp, this, eq_comm]
    · have : (findCore w gw outs).1 ≠ [] := by simpa [List.isEmpty_iff] using hemp
      simp [hemp, this]

theorem findHttp_fast_first (ip : MyIp) (post : List (Except String MyIp)) :
    ∀ (pre : List (Except String MyIp)) (results : List MyIp),
      (∀ o ∈ pre, okOf o = none) →
      findHttp true results (pre ++ .ok ip :: post) =
        (if results.contains ip then results else results ++ [ip], true, pre.length + 1) := by
  intro pre
  induction pre with
  | nil =>
    intro results _
    simp [findHttp]
  | cons o pre ih =>
    intro results hall
    cases o with
    | ok ip' =>
      have := hall (.ok ip') (by simp)
      simp [okOf] at this
    | error e =>
      have hrec := ih results (fun o ho => hall o (by simp [ho]))
      simp only [List.cons_append, findHttp, List.append_eq, hrec, List.length_cons]

/-! ## Parser and printer lemmas -/

theorem charToDigit_rustDigitChar10 (d : Nat) (h : d < 10) :
    charToDigit 10 (rustDigitChar d) = some d := by
  have : ∀ e : Fin 10, charToDigit 10 (rustDigitChar e.val) = some e.val := by decide
  exact this ⟨d, h⟩

theorem charToDigit_rustDigitChar16 (d : Nat) (h : d < 16) :
    charToDigit 16 (rustDigitChar d) = some d := by
  have : ∀ e : Fin 16, charToDigit 16 (rustDigitChar e.val) = some e.val := by decide
  exact this ⟨d, h⟩

theorem rustDigitChar_ne_zero_char (d : Nat) (hd : d < 16) (h : d ≠ 0) :
    rustDigitChar d ≠ '0' := by
  have : ∀ e : Fin 16, e.val ≠ 0 → rustDigitChar e.val ≠ '0' := by decide
  exact this ⟨d, hd⟩ h

theorem readDigits_step (radix cap : Nat) (maxDigits : Option Nat) (c : Char)
    (rest : List Char) (acc count d : Nat) (h : charToDigit radix c = some d)
    (hcap : acc * radix + d ≤ cap)
    (hm : ∀ m, maxDigits = some m → count + 1 ≤ m) :
    readDigits radix cap maxDigits (c :: rest) acc count =
      readDigits radix cap maxDigits rest (acc * radix + d) (count + 1) := by
  have hcond : (maxDigits.elim false fun m => decide (count + 1 > m)) = false := by
    cases maxDigits with
    | none => rfl
    | some m =>
      have := hm m rfl
      simp only [Option.elim, decide_eq_false_iff_not]
      omega
  simp only [readDigits, h]
  rw [if_neg (show ¬acc * radix + d > cap by omega), hcond]
  simp

theorem readDigits_stop (radix cap : Nat) (maxDigits : Option Nat)
    (rest : List Char) (acc count : Nat)
    (h : ∀ c r, rest = c :: r → charToDigit radix c = none) :
    readDigits radix cap maxDigits rest acc count = some (acc, count, rest) := by
  cases rest with
  | nil => rfl
  | cons c r => simp only [readDigits, h c r rfl]

theorem readNumber_nil (radix cap : Nat) (maxDigits : Option Nat) (az : Bool) :
    readNumber radix cap maxDigits az [] = none := by
  simp [readNumber, readDigits]

theorem readNumber_head_nondigit (radix cap : Nat) (maxDigits : Option Nat) (az : Bool)
    (c : Char) (r : List Char) (h : charToDigit radix c = none) :
    readNumber radix cap maxDigits az (c :: r) = none := by
  simp [readNumber, readDigits, h]

theorem readNumber_decRender (n : Nat) (hn : n < 256) (rest : List Char)
    (hrest : ∀ c r, rest = c :: r → charToDigit 10 c = none) :
    readNumber 10 255 (some 3) false (decRender n ++ rest) = some (n, rest) := by
  by_cases h1 : n < 10
  · rw [decRender, if_pos h1]
    simp only [List.cons_append, List.nil_append]
    rw [readNumber,
      readDigits_step 10 255 (some 3) _ rest 0 0 n (charToDigit_rustDigitChar10 n h1)
        (by omega) (by intro m hm; cases hm; omega),
      readDigits_stop 10 255 (some 3) rest _ _ hrest]
    norm_num
  · by_cases h2 : n < 100
    · rw [decRender, if_neg h1, if_pos h2]
      simp only [List.cons_append, List.nil_append]
      rw [readNumber,
        readDigits_step 10 255 (some 3) _ _ 0 0 (n / 10)
          (charToDigit_rustDigitChar10 _ (by omega)) (by omega)
          (by intro m hm; cases hm; omega),
        readDigits_step 10 255 (some 3) _ rest _ 1 (n % 10)
          (charToDigit_rustDigitChar10 _ (by omega)) (by omega)
          (by intro m hm; cases hm; omega),
        readDigits_stop 10 255 (some 3) rest _ _ hrest]
      have hz : rustDigitChar (n / 10) ≠ '0' :=
        rustDigitChar_ne_zero_char _ (by omega) (by omega)
      simp [hz]
      omega
    · rw [decRender, if_neg h1, if_neg h2]
      simp only [List.cons_append, List.nil_append]
      rw [readNumber,
        readDigits_step 10 255 (some 3) _ _ 0 0 (n / 100)
          (charToDigit_rustDigitChar10 _ (by omega)) (by omega)
          (by intro m hm; cases hm; omega),
        readDigits_step 10 255 (some 3) _ _ _ 1 (n / 10 % 10)
          (charToDigit_rustDigitChar10 _ (by omega)) (by omega)
          (by intro m hm; cases hm; omega),
        readDigits_step 10 255 (some 3) _ rest _ 2 (n % 10)
          (charToDigit_rustDigitChar10 _ (by omega)) (by omega)
          (by intro m hm; cases hm; omega),
        readDigits_stop 10 255 (some 3) rest _ _ hrest]
      have hz : rustDigitChar (n / 100) ≠ '0' :=
        rustDigitChar_ne_zero_char _ (by omega) (by omega)
      simp [hz]
      omega

theorem readNumber_hexRender (g : Nat) (hg : g < 65536) (rest : List Char)
    (hrest : ∀ c r, rest = c :: r → charToDigit 16 c = none) :
    readNumber 16 65535 (some 4) true (hexRender g ++ rest) = some (g, rest) := by
  by_cases h1 : g < 16
  · rw [hexRender, if_pos h1]
    simp only [List.cons_append, List.nil_append]
    rw [readNumber,
      readDigits_step 16 65535 (some 4) _ rest 0 0 g (charToDigit_rustDigitChar16 g h1)
        (by omega) (by intro m hm; cases hm; omega),
      readDigits_stop 16 65535 (some 4) rest _ _ hrest]
    norm_num
  · by_cases h2 : g < 256
    · rw [hexRender, if_neg h1, if_pos h2]
      simp only [List.cons_append, List.nil_append]
      rw [readNumber,
        readDigits_step 16 65535 (some 4) _ _ 0 0 (g / 16)
          (charToDigit_rustDigitChar16 _ (by omega)) (by omega)
          (by intro m hm; cases hm; omega),
        readDigits_step 16 65535 (some 4) _ rest _ 1 (g % 16)
          (charToDigit_rustDigitChar16 _ (by omega)) (by omega)
          (by intro m hm; cases hm; omega),
        readDigits_stop 16 65535 (some 4) rest _ _ hrest]
      simp
      omega
    · by_cases h3 : g < 4096
      · rw [hexRender, if_neg h1, if_neg h2, if_pos h3]
        simp only [List.cons_append, List.nil_append]
        rw [readNumber,
          readDigits_step 16 65535 (some 4) _ _ 0 0 (g / 256)
            (charToDigit_rustDigitChar16 _ (by omega)) (by omega)
            (by intro m hm; cases hm; omega),
          readDigits_step 16 65535 (some 4) _ _ _ 1 (g / 16 % 16)
            (charToDigit_rustDigitChar16 _ (by omega)) (by omega)
            (by intro m hm; cases hm; omega),
          readDigits_step 16 65535 (some 4) _ rest _ 2 (g % 16)
            (charToDigit_rustDigitChar16 _ (by omega)) (by omega)
            (by intro m hm; cases hm; omega),
          readDigits_stop 16 65535 (some 4) rest _ _ hrest]
        simp
        omega
      · rw [hexRender, if_neg h1, if_neg h2, if_neg h3]
        simp only [List.cons_append, List.nil_append]
        rw [readNumber,
          readDigits_step 16 65535 (some 4) _ _ 0 0 (g / 4096)
            (charToDigit_rustDigitChar16 _ (by omega)) (by omega)
            (by intro m hm; cases hm; omega),
          readDigits_step 16 65535 (some 4) _ _ _ 1 (g / 256 % 16)
            (charToDigit_rustDigitChar16 _ (by omega)) (by omega)
            (by intro m hm; cases hm; omega),
          readDigits_step 16 65535 (some 4) _ _ _ 2 (g / 16 % 16)
            (charToDigit_rustDigitChar16 _ (by omega)) (by omega)
            (by intro m hm; cases hm; omega),
          readDigits_step 16 65535 (some 4) _ rest _ 3 (g % 16)
            (charToDigit_rustDigitChar16 _ (by omega)) (by omega)
            (by intro m hm; cases hm; omega),
          readDigits_stop 16 65535 (some 4) rest _ _ hrest]
        simp
        omega

theorem head_nondigit_cons (radix : Nat) (a : Char) (ha : charToDigit radix a = none)
    (t : List Char) : ∀ c r, (a :: t) = c :: r → charToDigit radix c = none := by
  intro c r h
  cases h
  exact ha

theorem head_nondigit_nil (radix : Nat) :
    ∀ c r, ([] : List Char) = c :: r → charToDigit radix c = none := by
  intro c r h
  cases h

theorem expectChar_some (c : Char) (input rest : List Char)
    (h : expectChar c input = some rest) : input = c :: rest := by
  cases input with
  | nil => cases h
  | cons d r =>
    simp only [expectChar] at h
    by_cases hd : d = c
    · rw [if_pos hd] at h
      injection h with h'
      rw [hd, h']
    · rw [if_neg hd] at h
      cases h

theorem readDigits_sound (radix cap : Nat) (maxDigits : Option Nat) :
    ∀ (input : List Char) (acc count v cnt : Nat) (rest : List Char),
      readDigits radix cap maxDigits input acc count = some (v, cnt, rest) →
      ∃ pre, input = pre ++ rest ∧ ∀ c ∈ pre, (charToDigit radix c).isSome := by
  intro input
  induction input with
  | nil =>
    intro acc count v cnt rest h
    simp only [readDigits, Option.some.injEq, Prod.mk.injEq] at h
    exact ⟨[], by simp [h.2.2], by simp⟩
  | cons c r ih =>
    intro acc count v cnt rest h
    cases hc : charToDigit radix c with
    | none =>
      simp only [readDigits, hc, Option.some.injEq, Prod.mk.injEq] at h
      exact ⟨[], by simp [h.2.2], by simp⟩
    | some d =>
      simp only [readDigits, hc] at h
      by_cases hcap : acc * radix + d > cap
      · rw [if_pos hcap] at h
        cases h
      · rw [if_neg hcap] at h
        by_cases hm : (maxDigits.elim false fun m => decide (count + 1 > m)) = true
        · rw [if_pos hm] at h
          cases h
        · rw [if_neg hm] at h
          obtain ⟨pre, hp, hpc⟩ := ih _ _ _ _ _ h
          refine ⟨c :: pre, by simp [hp], ?_⟩
          intro c' hc'
          rcases List.mem_cons.1 hc' with h1 | h1
          · rw [h1, hc]
            rfl
          · exact hpc c' h1

theorem readNumber_sound (radix cap : Nat) (maxDigits : Option Nat) (az : Bool)
    (input : List Char) (v : Nat) (rest : List Char)
    (h : readNumber radix cap maxDigits az input = some (v, rest)) :
    ∃ pre, input = pre ++ rest ∧ ∀ c ∈ pre, (charToDigit radix c).isSome := by
  cases hd : readDigits radix cap maxDigits input 0 0 with
  | none =>
    simp only [readNumber, hd] at h
    cases h
  | some t =>
    obtain ⟨v', cnt, rest'⟩ := t
    simp only [readNumber, hd] at h
    by_cases h1 : cnt = 0
    · rw [if_pos h1] at h
      cases h
    · rw [if_neg h1] at h
      by_cases h2 : az = false ∧ input.head? = some '0' ∧ 1 < cnt
      · rw [if_pos h2] at h
        cases h
      · rw [if_neg h2] at h
        injection h with h'
        have hr : rest' = rest := (Prod.mk.inj h').2
        rw [← hr]
        exact readDigits_sound radix cap maxDigits input 0 0 v' cnt rest' hd

theorem readIpv4_none_of_no_dot (input : List Char) (h : '.' ∉ input) :
    readIpv4 input = none := by
  cases h1 : readNumber 10 255 (some 3) false input with
  | none => simp only [readIpv4, h1]
  | some t =>
    obtain ⟨a, r1⟩ := t
    obtain ⟨pre, hpre, _⟩ := readNumber_sound _ _ _ _ _ _ _ h1
    have hdot : '.' ∉ r1 := fun hm => h (hpre ▸ List.mem_append_right pre hm)
    have he : expectChar '.' r1 = none := by
      cases r1 with
      | nil => rfl
      | cons c r =>
        have hc : c ≠ '.' := fun hc => hdot (hc ▸ List.mem_cons_self c r)
        simp [expectChar, hc]
    simp only [readIpv4, h1, he]

theorem readIpv4_chars (input : List Char) (x : Ipv4Addr) (rest : List Char)
    (h : readIpv4 input = some (x, rest)) :
    ∃ pre, input = pre ++ rest ∧ ∀ c ∈ pre, c ≠ ':' := by
  have hnd : ∀ (c : Char), (charToDigit 10 c).isSome = true → c ≠ ':' := by
    intro c hc hcol
    rw [hcol] at hc
    simp [show charToDigit 10 ':' = none from rfl] at hc
  cases h1 : readNumber 10 255 (some 3) false input with
  | none =>
    simp only [readIpv4, h1] at h
    cases h
  | some t1 =>
    obtain ⟨a, r1⟩ := t1
    simp only [readIpv4, h1] at h
    cases h2 : expectChar '.' r1 with
    | none =>
      simp only [h2] at h
      cases h
    | some r1' =>
      simp only [h2] at h
      cases h3 : readNumber 10 255 (some 3) false r1' with
      | none =>
        simp only [h3] at h
        cases h
      | some t2 =>
        obtain ⟨b, r2⟩ := t2
        simp only [h3] at h
        cases h4 : expectChar '.' r2 with
        | none =>
          simp only [h4] at h
          cases h
        | some r2' =>
          simp only [h4] at h
          cases h5 : readNumber 10 255 (some 3) false r2' with
          | none =>
            simp only [h5] at h
            cases h
          | some t3 =>
            obtain ⟨c, r3⟩ := t3
            simp only [h5] at h
            cases h6 : expectChar '.' r3 with
            | none =>
              simp only [h6] at h
              cases h
            | some r3' =>
              simp only [h6] at h
              cases h7 : readNumber 10 255 (some 3) false r3' with
              | none =>
                simp only [h7] at h
                cases h
              | some t4 =>
                obtain ⟨d, r4⟩ := t4
                simp only [h7] at h
                have hr4 : r4 = rest := by
                  by_cases hb : a < 256 ∧ b < 256 ∧ c < 256 ∧ d < 256
                  · rw [dif_pos hb] at h
                    injection h with h'
                    exact (Prod.mk.inj h').2
                  · rw [dif_neg hb] at h
                    cases h
                subst hr4
                obtain ⟨p1, hp1, hc1⟩ := readNumber_sound _ _ _ _ _ _ _ h1
                obtain ⟨p2, hp2, hc2⟩ := readNumber_sound _ _ _ _ _ _ _ h3
                obtain ⟨p3, hp3, hc3⟩ := readNumber_sound _ _ _ _ _ _ _ h5
                obtain ⟨p4, hp4, hc4⟩ := readNumber_sound _ _ _ _ _ _ _ h7
                have e2 := expectChar_some _ _ _ h2
                have e4 := expectChar_some _ _ _ h4
                have e6 := expectChar_some _ _ _ h6
                refine ⟨p1 ++ '.' :: p2 ++ '.' :: p3 ++ '.' :: p4, ?_, ?_⟩
                · rw [hp1, e2, hp2, e4, hp3, e6, hp4]
                  simp
                · intro ch hch
                  have hsplit : ch ∈ p1 ∨ ch = '.' ∨ ch ∈ p2 ∨ ch = '.' ∨ ch ∈ p3 ∨
                      ch = '.' ∨ ch ∈ p4 := by
                    simpa [List.mem_append, List.mem_cons, or_assoc] using hch
                  rcases hsplit with h' | h' | h' | h' | h' | h' | h'
                  · exact hnd ch (hc1 ch h')
                  · rw [h']; decide
                  · exact hnd ch (hc2 ch h')
                  · rw [h']; decide
                  · exact hnd ch (hc3 ch h')
                  · rw [h']; decide
                  · exact hnd ch (hc4 ch h')

theorem ipv4FromStr_none_of_colon (l : List Char) (hmem : ':' ∈ l) :
    ipv4FromStr l = none := by
  cases hr : readIpv4 l with
  | none => simp only [ipv4FromStr, hr]
  | some t =>
    obtain ⟨x, rest⟩ := t
    cases rest with
    | cons c r => simp only [ipv4FromStr, hr]
    | nil =>
      obtain ⟨pre, hpre, hchar⟩ := readIpv4_chars l x [] hr
      rw [List.append_nil] at hpre
      subst hpre
      exact absurd rfl (hchar ':' hmem)

theorem readIpv4_render (x : Ipv4Addr) (rest : List Char)
    (hrest : ∀ c r, rest = c :: r → charToDigit 10 c = none) :
    readIpv4 (ipv4Render x ++ rest) = some (x, rest) := by
  obtain ⟨⟨a, ha⟩, ⟨b, hb⟩, ⟨c, hc⟩, ⟨d, hd⟩⟩ := x
  have e1 := readNumber_decRender a ha
    ('.' :: (decRender b ++ '.' :: (decRender c ++ '.' :: (decRender d ++ rest))))
    (head_nondigit_cons 10 '.' (by decide) _)
  have e2 := readNumber_decRender b hb
    ('.' :: (decRender c ++ '.' :: (decRender d ++ rest)))
    (head_nondigit_cons 10 '.' (by decide) _)
  have e3 := readNumber_decRender c hc
    ('.' :: (decRender d ++ rest))
    (head_nondigit_cons 10 '.' (by decide) _)
  have e4 := readNumber_decRender d hd rest hrest
  simp only [readIpv4, ipv4Render, List.append_assoc, List.cons_append, e1, e2, e3, e4,
    expectChar, if_pos]
  rw [dif_pos (⟨ha, hb, hc, hd⟩ : a < 256 ∧ b < 256 ∧ c < 256 ∧ d < 256)]

theorem ipv4FromStr_render (x : Ipv4Addr) : ipv4FromStr (ipv4Render x) = some x := by
  have h := readIpv4_render x [] (head_nondigit_nil 10)
  rw [List.append_nil] at h
  simp only [ipv4FromStr, h]

theorem readIpv4_nil : readIpv4 [] = none := by decide

theorem readIpv4_colon_head (r : List Char) : readIpv4 (':' :: r) = none := by
  have h1 : readNumber 10 255 (some 3) false (':' :: r) = none :=
    readNumber_head_nondigit 10 255 (some 3) false ':' r (by decide)
  simp only [readIpv4, h1]

theorem readNumber16_colon_head (r : List Char) :
    readNumber 16 65535 (some 4) true (':' :: r) = none :=
  readNumber_head_nondigit 16 65535 (some 4) true ':' r (by decide)

theorem readSep_ipv4_stop (first : Bool) (rest : List Char)
    (hstop : rest = [] ∨ ∃ r, rest = ':' :: ':' :: r) :
    readSep first readIpv4 rest = none := by
  rcases hstop with rfl | ⟨r, rfl⟩
  · cases first
    · simp [readSep, expectChar]
    · simp [readSep, readIpv4_nil]
  · cases first
    · simp [readSep, expectChar, readIpv4_colon_head]
    · simp [readSep, readIpv4_colon_head]

theorem readSep_num_stop (first : Bool) (rest : List Char)
    (hstop : rest = [] ∨ ∃ r, rest = ':' :: ':' :: r) :
    readSep first (readNumber 16 65535 (some 4) true) rest = none := by
  rcases hstop with rfl | ⟨r, rfl⟩
  · cases first
    · simp [readSep, expectChar]
    · simp [readSep, readNumber_nil]
  · cases first
    · simp [readSep, expectChar, readNumber16_colon_head]
    · simp [readSep, readNumber16_colon_head]

theorem readGroups_stop (first : Bool) (n : Nat) (rest : List Char)
    (hstop : rest = [] ∨ ∃ r, rest = ':' :: ':' :: r) :
    readGroups first n rest = ([], false, rest) := by
  cases n with
  | zero => rfl
  | succ m =>
    have h1 : (if 1 ≤ m then readSep first readIpv4 rest else none) = none := by
      split
      · exact readSep_ipv4_stop first rest hstop
      · rfl
    simp only [readGroups, h1, readSep_num_stop first rest hstop]

theorem hexRender_chars (g : Nat) (hg : g < 65536) :
    ∀ c ∈ hexRender g, ∃ d : Fin 16, c = rustDigitChar d.val := by
  intro c hc
  by_cases h1 : g < 16
  · rw [hexRender, if_pos h1] at hc
    simp only [List.mem_singleton] at hc
    exact ⟨⟨g, by omega⟩, by simp [hc]⟩
  · by_cases h2 : g < 256
    · rw [hexRender, if_neg h1, if_pos h2] at hc
      simp only [List.mem_cons, List.not_mem_nil, or_false] at hc
      rcases hc with hc | hc
      · exact ⟨⟨g / 16, by omega⟩, by simp [hc]⟩
      · exact ⟨⟨g % 16, by omega⟩, by simp [hc]⟩
    · by_cases h3 : g < 4096
      · rw [hexRender, if_neg h1, if_neg h2, if_pos h3] at hc
        simp only [List.mem_cons, List.not_mem_nil, or_false] at hc
        rcases hc with hc | hc | hc
        · exact ⟨⟨g / 256, by omega⟩, by simp [hc]⟩
        · exact ⟨⟨g / 16 % 16, by omega⟩, by simp [hc]⟩
        · exact ⟨⟨g % 16, by omega⟩, by simp [hc]⟩
      · rw [hexRender, if_neg h1, if_neg h2, if_neg h3] at hc
        simp only [List.mem_cons, List.not_mem_nil, or_false] at hc
        rcases hc with hc | hc | hc | hc
        · exact ⟨⟨g / 4096, by omega⟩, by simp [hc]⟩
        · exact ⟨⟨g / 256 % 16, by omega⟩, by simp [hc]⟩
        · exact ⟨⟨g / 16 % 16, by omega⟩, by simp [hc]⟩
        · exact ⟨⟨g % 16, by omega⟩, by simp [hc]⟩

theorem hexRender_no_dot (g : Nat) (hg : g < 65536) : '.' ∉ hexRender g := by
  intro hm
  obtain ⟨d, hd⟩ := hexRender_chars g hg _ hm
  have hall : ∀ e : Fin 16, rustDigitChar e.val ≠ '.' := by decide
  exact hall d hd.symm

theorem groupsRenderTail_no_dot (gs : List Nat) (hb : ∀ g ∈ gs, g < 65536) :
    '.' ∉ groupsRenderTail gs := by
  induction gs with
  | nil => simp [groupsRenderTail]
  | cons g gs' ih =>
    simp only [groupsRenderTail, List.mem_cons, List.mem_append]
    push_neg
    refine ⟨by decide, ?_, ?_⟩
    · exact hexRender_no_dot g (hb g (by simp))
    · exact ih (fun g' hg' => hb g' (by simp [hg']))

theorem groupsRender_no_dot (gs : List Nat) (hb : ∀ g ∈ gs, g < 65536) :
    '.' ∉ groupsRender gs := by
  cases gs with
  | nil => simp [groupsRender]
  | cons g gs' =>
    simp only [groupsRender, List.mem_append]
    push_neg
    refine ⟨?_, ?_⟩
    · exact hexRender_no_dot g (hb g (by simp))
    · exact groupsRenderTail_no_dot gs' (fun g' hg' => hb g' (by simp [hg']))

theorem groupsRenderTail_head_nondigit16 (gs' : List Nat) (rest : List Char)
    (hstop : rest = [] ∨ ∃ r, rest = ':' :: ':' :: r) :
    ∀ c r, (groupsRenderTail gs' ++ rest) = c :: r → charToDigit 16 c = none := by
  cases gs' with
  | cons g gs'' =>
    intro c r h
    simp only [groupsRenderTail, List.cons_append] at h
    cases h
    decide
  | nil =>
    simp only [groupsRenderTail, List.nil_append]
    rcases hstop with rfl | ⟨r', rfl⟩
    · intro c r h
      cases h
    · intro c r h
      cases h
      decide

theorem readSep_ipv4_no_dot (first : Bool) (input : List Char) (hdot : '.' ∉ input) :
    readSep first readIpv4 input = none := by
  cases first
  · cases input with
    | nil => simp [readSep, expectChar]
    | cons c r =>
      have hr : '.' ∉ r := fun hm => hdot (List.mem_cons_of_mem c hm)
      by_cases hc : c = ':'
      · simp [readSep, expectChar, hc, readIpv4_none_of_no_dot r hr]
      · simp [readSep, expectChar, hc]
  · simp [readSep, readIpv4_none_of_no_dot input hdot]

theorem groupsRenderTail_append_no_dot (gs : List Nat) (hb : ∀ g ∈ gs, g < 65536)
    (rest : List Char) (hrdot : '.' ∉ rest) : '.' ∉ (groupsRenderTail gs ++ rest) := by
  intro hm
  rcases List.mem_append.1 hm with hm | hm
  · exact groupsRenderTail_no_dot gs hb hm
  · exact hrdot hm

theorem readGroups_renderTail (gs : List Nat) : ∀ (n : Nat) (rest : List Char),
    gs.length ≤ n → (∀ g ∈ gs, g < 65536) →
    (rest = [] ∨ ∃ r, rest = ':' :: ':' :: r) → '.' ∉ rest →
    readGroups false n (groupsRenderTail gs ++ rest) = (gs, false, rest) := by
  induction gs with
  | nil =>
    intro n rest _ _ hstop _
    simpa [groupsRenderTail] using readGroups_stop false n rest hstop
  | cons g gs' ih =>
    intro n rest hlen hb hstop hrdot
    have hl : gs'.length + 1 ≤ n := by simpa using hlen
    obtain ⟨m, rfl⟩ : ∃ m, n = m + 1 := ⟨n - 1, by omega⟩
    have hbg : g < 65536 := hb g (by simp)
    have hb' : ∀ g' ∈ gs', g' < 65536 := fun g' hg' => hb g' (by simp [hg'])
    have hinput : groupsRenderTail (g :: gs') ++ rest =
        ':' :: (hexRender g ++ (groupsRenderTail gs' ++ rest)) := by
      simp [groupsRenderTail]
    have hdotT : '.' ∉ (groupsRenderTail gs' ++ rest) :=
      groupsRenderTail_append_no_dot gs' hb' rest hrdot
    have hdotInput : '.' ∉ (':' :: (hexRender g ++ (groupsRenderTail gs' ++ rest))) := by
      intro hm
      rcases List.mem_cons.1 hm with hm | hm
      · cases hm
      · rcases List.mem_append.1 hm with hm | hm
        · exact hexRender_no_dot g hbg hm
        · exact hdotT hm
    have hA : (if 1 ≤ m then
        readSep false readIpv4 (':' :: (hexRender g ++ (groupsRenderTail gs' ++ rest)))
        else none) = none := by
      split
      · exact readSep_ipv4_no_dot false _ hdotInput
      · rfl
    have hB : readSep false (readNumber 16 65535 (some 4) true)
        (':' :: (hexRender g ++ (groupsRenderTail gs' ++ rest))) =
        some (g, groupsRenderTail gs' ++ rest) := by
      simp [readSep, expectChar,
        readNumber_hexRender g hbg _ (groupsRenderTail_head_nondigit16 gs' rest hstop)]
    rw [hinput]
    simp only [readGroups, hA, hB]
    rw [ih m rest (by omega) hb' hstop hrdot]

theorem readGroups_renderFull (gs : List Nat) (n : Nat) (rest : List Char)
    (hlen : gs.length ≤ n) (hb : ∀ g ∈ gs, g < 65536)
    (hstop : rest = [] ∨ ∃ r, rest = ':' :: ':' :: r) (hrdot : '.' ∉ rest) :
    readGroups true n (groupsRender gs ++ rest) = (gs, false, rest) := by
  cases gs with
  | nil =>
    simpa [groupsRender] using readGroups_stop true n rest hstop
  | cons g gs' =>
    have hl : gs'.length + 1 ≤ n := by simpa using hlen
    obtain ⟨m, rfl⟩ : ∃ m, n = m + 1 := ⟨n - 1, by omega⟩
    have hbg : g < 65536 := hb g (by simp)
    have hb' : ∀ g' ∈ gs', g' < 65536 := fun g' hg' => hb g' (by simp [hg'])
    have hinput : groupsRender (g :: gs') ++ rest =
        hexRender g ++ (groupsRenderTail gs' ++ rest) := by
      simp [groupsRender]
    have hdotT : '.' ∉ (groupsRenderTail gs' ++ rest) :=
      groupsRenderTail_append_no_dot gs' hb' rest hrdot
    have hdotInput : '.' ∉ (hexRender g ++ (groupsRenderTail gs' ++ rest)) := by
      intro hm
      rcases List.mem_append.1 hm with hm | hm
      · exact hexRender_no_dot g hbg hm
      · exact hdotT hm
    have hA : (if 1 ≤ m then
        readSep true readIpv4 (hexRender g ++ (groupsRenderTail gs' ++ rest))
        else none) = none := by
      split
      · exact readSep_ipv4_no_dot true _ hdotInput
      · rfl
    have hB : readSep true (readNumber 16 65535 (some 4) true)
        (hexRender g ++ (groupsRenderTail gs' ++ rest)) =
        some (g, groupsRenderTail gs' ++ rest) := by
      simp [readSep,
        readNumber_hexRender g hbg _ (groupsRenderTail_head_nondigit16 gs' rest hstop)]
    rw [hinput]
    simp only [readGroups, hA, hB]
    rw [readGroups_renderTail gs' m rest (by omega) hb' hstop hrdot]

theorem zeroSpanLoop_sound (segs : List Nat) :
    ∀ (rest : List Nat) (i : Nat) (current longest : Span),
      rest = segs.drop i →
      SpanZero segs current →
      (current.len = 0 ∨ current.start + current.len = i) →
      SpanZero segs longest →
      SpanZero segs (zeroSpanLoop rest i current longest) := by
  intro rest
  induction rest with
  | nil =>
    intro i current longest _ _ _ hlong
    simpa [zeroSpanLoop] using hlong
  | cons s rest' ih =>
    intro i current longest hdrop hcur hcuri hlong
    have hi : i < segs.length := by
      by_contra hge
      push_neg at hge
      rw [List.drop_eq_nil_of_le hge] at hdrop
      cases hdrop
    have hsi : segs[i]? = some s := by
      have h0 : (segs.drop i)[0]? = segs[i]? := by
        simp [List.getElem?_drop]
      have h1 : (segs.drop i)[0]? = some s := by
        rw [← hdrop]
        simp
      rw [← h0, h1]
    have hrest' : rest' = segs.drop (i + 1) := by
      have h1 : (segs.drop i).drop 1 = segs.drop (i + 1) := List.drop_drop 1 i segs
      rw [← h1, ← hdrop]
      rfl
    simp only [zeroSpanLoop]
    by_cases hs : s = 0
    · rw [if_pos hs]
      by_cases h0 : current.len = 0
      · rw [if_pos h0]
        have hcz : SpanZero segs ⟨i, 1⟩ := by
          refine ⟨by simp; omega, ?_⟩
          intro j hj
          simp only at hj
          have hj0 : j = 0 := by omega
          rw [hj0]
          rw [hs] at hsi
          simpa using hsi
        refine ih (i + 1) ⟨i, 1⟩ _ hrest' hcz (Or.inr rfl) ?_
        split
        · exact hcz
        · exact hlong
      · rw [if_neg h0]
        have hci : current.start + current.len = i := hcuri.resolve_left h0
        have hcz : SpanZero segs ⟨current.start, current.len + 1⟩ := by
          refine ⟨by simp; omega, ?_⟩
          intro j hj
          simp only at hj ⊢
          by_cases hjl : j < current.len
          · exact hcur.2 j hjl
          · have hj' : j = current.len := by omega
            rw [hj', hci]
            rw [hs] at hsi
            exact hsi
        refine ih (i + 1) ⟨current.start, current.len + 1⟩ _ hrest' hcz
          (Or.inr (by simp; omega)) ?_
        split
        · exact hcz
        · exact hlong
    · rw [if_neg hs]
      refine ih (i + 1) ⟨0, 0⟩ longest hrest' ⟨by simp, ?_⟩ (Or.inl rfl) hlong
      intro j hj
      simp only at hj
      omega

theorem zeroSpan_sound (segs : List Nat) :
    SpanZero segs (zeroSpanLoop segs 0 ⟨0, 0⟩ ⟨0, 0⟩) := by
  have hz : SpanZero segs ⟨0, 0⟩ := by
    refine ⟨by simp, ?_⟩
    intro j hj
    simp only at hj
    omega
  exact zeroSpanLoop_sound segs segs 0 ⟨0, 0⟩ ⟨0, 0⟩ (by simp) hz (Or.inl rfl) hz

theorem span_decomposition (segs : List Nat) (sp : Span) (h : SpanZero segs sp) :
    segs = segs.take sp.start ++ (List.replicate sp.len 0 ++ segs.drop (sp.start + sp.len)) := by
  have hmid : (segs.drop sp.start).take sp.len = List.replicate sp.len 0 := by
    rw [List.eq_replicate_iff]
    constructor
    · rw [List.length_take, List.length_drop]
      have := h.1
      omega
    · intro b hb
      obtain ⟨j, hj, hjb⟩ := List.mem_iff_getElem.1 hb
      have hjlen : j < sp.len := by
        have := hj
        rw [List.length_take] at this
        omega
      have hgoal : segs[sp.start + j]? = some 0 := h.2 j hjlen
      have hjlt : sp.start + j < segs.length := by
        have := h.1
        omega
      rw [List.getElem?_eq_getElem hjlt] at hgoal
      have : (List.take sp.len (List.drop sp.start segs))[j] = segs[sp.start + j] := by
        rw [List.getElem_take, List.getElem_drop]
      rw [← hjb, this]
      injection hgoal
  calc segs = segs.take sp.start ++ segs.drop sp.start :=
        (List.take_append_drop _ _).symm
    _ = segs.take sp.start ++ (List.replicate sp.len 0 ++ segs.drop (sp.start + sp.len)) := by
        rw [← List.drop_take_append_drop segs sp.start sp.len, hmid]

theorem mkIpv6OfList_self (x : Ipv6Addr) : mkIpv6OfList x.segs = some x := by
  obtain ⟨segs, hv⟩ := x
  simp only [mkIpv6OfList]
  rw [dif_pos hv]

theorem list_eight (l : List Nat) (hl : l.length = 8) :
    ∃ s0 s1 s2 s3 s4 s5 s6 s7, l = [s0, s1, s2, s3, s4, s5, s6, s7] := by
  obtain ⟨s0, l, rfl⟩ := List.exists_of_length_succ l hl
  obtain ⟨s1, l, rfl⟩ := List.exists_of_length_succ l (by simpa using hl)
  obtain ⟨s2, l, rfl⟩ := List.exists_of_length_succ l (by simpa using hl)
  obtain ⟨s3, l, rfl⟩ := List.exists_of_length_succ l (by simpa using hl)
  obtain ⟨s4, l, rfl⟩ := List.exists_of_length_succ l (by simpa using hl)
  obtain ⟨s5, l, rfl⟩ := List.exists_of_length_succ l (by simpa using hl)
  obtain ⟨s6, l, rfl⟩ := List.exists_of_length_succ l (by simpa using hl)
  obtain ⟨s7, l, rfl⟩ := List.exists_of_length_succ l (by simpa using hl)
  have hnil : l = [] := List.eq_nil_of_length_eq_zero (by simpa using hl)
  exact ⟨s0, s1, s2, s3, s4, s5, s6, s7, by rw [hnil]⟩

theorem readIpv4_f_head (r : List Char) : readIpv4 ('f' :: r) = none := by
  have h1 : readNumber 10 255 (some 3) false ('f' :: r) = none :=
    readNumber_head_nondigit 10 255 (some 3) false 'f' r (by decide)
  simp only [readIpv4, h1]

theorem readGroups_mapped_tail (x4 : Ipv4Addr) :
    readGroups true 7 (hexRender 65535 ++ ':' :: ipv4Render x4) =
      ([65535, x4.hiGroup, x4.loGroup], true, []) := by
  have hA : (if 1 ≤ 6 then
      readSep true readIpv4 (hexRender 65535 ++ ':' :: ipv4Render x4) else none) = none := by
    rw [if_pos (by omega)]
    show readSep true readIpv4 ('f' :: ('f' :: 'f' :: 'f' :: ':' :: ipv4Render x4)) = none
    simp [readSep, readIpv4_f_head]
  have hB : readSep true (readNumber 16 65535 (some 4) true)
      (hexRender 65535 ++ ':' :: ipv4Render x4) = some (65535, ':' :: ipv4Render x4) := by
    simp [readSep, readNumber_hexRender 65535 (by omega) (':' :: ipv4Render x4)
      (head_nondigit_cons 16 ':' (by decide) _)]
  have hC : (if 1 ≤ 5 then readSep false readIpv4 (':' :: ipv4Render x4) else none) =
      some (x4, []) := by
    rw [if_pos (by omega)]
    have h4 : readIpv4 (ipv4Render x4 ++ []) = some (x4, []) :=
      readIpv4_render x4 [] (head_nondigit_nil 10)
    rw [List.append_nil] at h4
    simp [readSep, expectChar, h4]
  show readGroups true (6 + 1) (hexRender 65535 ++ ':' :: ipv4Render x4) =
    ([65535, x4.hiGroup, x4.loGroup], true, [])
  simp only [readGroups, hA, hB]
  show (65535 :: (readGroups false (5 + 1) (':' :: ipv4Render x4)).1, _, _) = _
  simp only [readGroups, hC]

theorem readIpv6_assemble (input R : List Char) (head tail : List Nat) (flagT : Bool)
    (h1 : readGroups true 8 input = (head, false, ':' :: ':' :: R))
    (hlen : head.length ≠ 8)
    (h2 : readGroups true (8 - (head.length + 1)) R = (tail, flagT, []))
    (x : Ipv6Addr)
    (hsegs : head ++ List.replicate (8 - head.length - tail.length) 0 ++ tail = x.segs) :
    readIpv6 input = some (x, []) := by
  simp only [readIpv6, h1]
  rw [if_neg hlen, if_neg (show ¬false = true by simp)]
  have e1 : expectChar ':' (':' :: ':' :: R) = some (':' :: R) := by
    simp [expectChar]
  have e2 : expectChar ':' (':' :: R) = some R := by
    simp [expectChar]
  simp only [e1, e2, h2]
  rw [hsegs, mkIpv6OfList_self]

/-- The parse of the full IPv6 rendering consumes the whole input and
returns the rendered address. -/
theorem readIpv6_render (x : Ipv6Addr) : readIpv6 (ipv6Render x) = some (x, []) := by
  obtain ⟨segs, hv⟩ := x
  have hlen8 : segs.length = 8 := hv.1
  have hb : ∀ s ∈ segs, s < 65536 := hv.2
  by_cases hmap : segs.take 6 = [0, 0, 0, 0, 0, 65535]
  · -- IPv4-mapped branch
    obtain ⟨a0, a1, a2, a3, a4, a5, g, k, rfl⟩ := list_eight segs hlen8
    have heq : a0 = 0 ∧ a1 = 0 ∧ a2 = 0 ∧ a3 = 0 ∧ a4 = 0 ∧ a5 = 65535 := by
      simpa using hmap
    obtain ⟨rfl, rfl, rfl, rfl, rfl, rfl⟩ := heq
    have hg : g < 65536 := hb g (by simp)
    have hk : k < 65536 := hb k (by simp)
    set x4 : Ipv4Addr :=
      ⟨⟨g / 256, by omega⟩, ⟨g % 256, by omega⟩, ⟨k / 256, by omega⟩, ⟨k % 256, by omega⟩⟩
      with hx4
    have hrender : ipv6Render ⟨[0, 0, 0, 0, 0, 65535, g, k], hv⟩ =
        ':' :: ':' :: (hexRender 65535 ++ ':' :: ipv4Render x4) := by
      simp only [ipv6Render]
      rw [if_pos (by simp)]
      simp only [List.getD]
      rfl
    rw [hrender]
    have hstep1 : readGroups true 8
        (':' :: ':' :: (hexRender 65535 ++ ':' :: ipv4Render x4)) =
        ([], false, ':' :: ':' :: (hexRender 65535 ++ ':' :: ipv4Render x4)) :=
      readGroups_stop true 8 _ (Or.inr ⟨_, rfl⟩)
    have hstep2 : readGroups true (8 - (List.length ([] : List Nat) + 1))
        (hexRender 65535 ++ ':' :: ipv4Render x4) =
        ([65535, x4.hiGroup, x4.loGroup], true, []) := by
      simpa using readGroups_mapped_tail x4
    refine readIpv6_assemble _ _ [] [65535, x4.hiGroup, x4.loGroup] true hstep1 (by simp)
      hstep2 ⟨[0, 0, 0, 0, 0, 65535, g, k], hv⟩ ?_
    have hhi : x4.hiGroup = g := by
      simp [Ipv4Addr.hiGroup, hx4]
      omega
    have hlo : x4.loGroup = k := by
      simp [Ipv4Addr.loGroup, hx4]
      omega
    simp [hhi, hlo, List.replicate]
  · -- zero-run branches
    have hz := zeroSpan_sound segs
    set z := zeroSpanLoop segs 0 ⟨0, 0⟩ ⟨0, 0⟩ with hzdef
    by_cases hl2 : z.len > 1
    · -- compressed rendering
      have hzle : z.start + z.len ≤ 8 := by
        have := hz.1
        omega
      have hstart : z.start ≤ 6 := by omega
      have hrender : ipv6Render ⟨segs, hv⟩ =
          groupsRender (segs.take z.start) ++
            ':' :: ':' :: groupsRender (segs.drop (z.start + z.len)) := by
        simp only [ipv6Render]
        rw [if_neg hmap, ← hzdef, if_pos hl2]
      rw [hrender]
      have hbhead : ∀ g' ∈ segs.take z.start, g' < 65536 :=
        fun g' hg' => hb g' (List.take_subset _ _ hg')
      have hbtail : ∀ g' ∈ segs.drop (z.start + z.len), g' < 65536 :=
        fun g' hg' => hb g' (List.drop_subset _ _ hg')
      have hheadlen : (segs.take z.start).length = z.start := by
        rw [List.length_take]
        omega
      have htaillen : (segs.drop (z.start + z.len)).length = 8 - (z.start + z.len) := by
        rw [List.length_drop, hlen8]
      have hstep1 : readGroups true 8
          (groupsRender (segs.take z.start) ++
            ':' :: ':' :: groupsRender (segs.drop (z.start + z.len))) =
          (segs.take z.start, false,
            ':' :: ':' :: groupsRender (segs.drop (z.start + z.len))) := by
        refine readGroups_renderFull _ 8 _ (by omega) hbhead (Or.inr ⟨_, rfl⟩) ?_
        intro hm
        rcases List.mem_cons.1 hm with hm | hm
        · cases hm
        rcases List.mem_cons.1 hm with hm | hm
        · cases hm
        exact groupsRender_no_dot _ hbtail hm
      have hstep2 : readGroups true (8 - ((segs.take z.start).length + 1))
          (groupsRender (segs.drop (z.start + z.len))) =
          (segs.drop (z.start + z.len), false, []) := by
        have h0 : groupsRender (segs.drop (z.start + z.len)) =
            groupsRender (segs.drop (z.start + z.len)) ++ [] := by
          simp
        rw [h0]
        exact readGroups_renderFull _ _ [] (by omega) hbtail (Or.inl rfl) (by simp)
      refine readIpv6_assemble _ _ (segs.take z.start) (segs.drop (z.start + z.len)) false
        hstep1 (by omega) hstep2 ⟨segs, hv⟩ ?_
      rw [hheadlen, htaillen]
      have hrepl : 8 - z.start - (8 - (z.start + z.len)) = z.len := by omega
      rw [hrepl, List.append_assoc]
      exact (span_decomposition segs z ⟨by omega, hz.2⟩).symm
    · -- uncompressed rendering
      have hrender : ipv6Render ⟨segs, hv⟩ = groupsRender segs := by
        simp only [ipv6Render]
        rw [if_neg hmap, ← hzdef, if_neg hl2]
      rw [hrender]
      have hstep1 : readGroups true 8 (groupsRender segs) = (segs, false, []) := by
        have h0 : groupsRender segs = groupsRender segs ++ [] := by
          simp
        rw [h0]
        exact readGroups_renderFull _ 8 [] (by omega) hb (Or.inl rfl) (by simp)
      simp only [readIpv6, hstep1]
      rw [if_pos hlen8, mkIpv6OfList_self ⟨segs, hv⟩]

theorem ipv6FromStr_render (x : Ipv6Addr) : ipv6FromStr (ipv6Render x) = some x := by
  simp only [ipv6FromStr, readIpv6_render]

theorem ipv6Render_has_colon (x : Ipv6Addr) : ':' ∈ ipv6Render x := by
  obtain ⟨segs, hv⟩ := x
  simp only [ipv6Render]
  by_cases hmap : segs.take 6 = [0, 0, 0, 0, 0, 65535]
  · rw [if_pos hmap]
    have h0 : ':' ∈ "::ffff:".toList := by decide
    simp [List.mem_append, h0]
  · rw [if_neg hmap]
    by_cases hl2 : (zeroSpanLoop segs 0 ⟨0, 0⟩ ⟨0, 0⟩).len > 1
    · rw [if_pos hl2]
      simp [List.mem_append]
    · rw [if_neg hl2]
      obtain ⟨a0, a1, a2, a3, a4, a5, a6, a7, rfl⟩ := list_eight segs hv.1
      simp [groupsRender, groupsRenderTail]

theorem rustDigitChar_not_ws : ∀ d : Fin 16, isRustWhitespace (rustDigitChar d.val) = false := by
  decide

theorem decRender_chars (n : Nat) (hn : n < 256) :
    ∀ c ∈ decRender n, ∃ d : Fin 16, c = rustDigitChar d.val := by
  intro c hc
  by_cases h1 : n < 10
  · rw [decRender, if_pos h1] at hc
    simp only [List.mem_singleton] at hc
    exact ⟨⟨n, by omega⟩, by simp [hc]⟩
  · by_cases h2 : n < 100
    · rw [decRender, if_neg h1, if_pos h2] at hc
      simp only [List.mem_cons, List.not_mem_nil, or_false] at hc
      rcases hc with hc | hc
      · exact ⟨⟨n / 10, by omega⟩, by simp [hc]⟩
      · exact ⟨⟨n % 10, by omega⟩, by simp [hc]⟩
    · rw [decRender, if_neg h1, if_neg h2] at hc
      simp only [List.mem_cons, List.not_mem_nil, or_false] at hc
      rcases hc with hc | hc | hc
      · exact ⟨⟨n / 100, by omega⟩, by simp [hc]⟩
      · exact ⟨⟨n / 10 % 10, by omega⟩, by simp [hc]⟩
      · exact ⟨⟨n % 10, by omega⟩, by simp [hc]⟩

theorem decRender_not_ws (n : Nat) (hn : n < 256) :
    ∀ c ∈ decRender n, isRustWhitespace c = false := by
  intro c hc
  obtain ⟨d, rfl⟩ := decRender_chars n hn c hc
  exact rustDigitChar_not_ws d

theorem hexRender_not_ws (g : Nat) (hg : g < 65536) :
    ∀ c ∈ hexRender g, isRustWhitespace c = false := by
  intro c hc
  obtain ⟨d, rfl⟩ := hexRender_chars g hg c hc
  exact rustDigitChar_not_ws d

theorem ipv4Render_not_ws (x : Ipv4Addr) :
    ∀ c ∈ ipv4Render x, isRustWhitespace c = false := by
  intro c hc
  simp only [ipv4Render] at hc
  have hsplit : c ∈ decRender x.a.val ∨ c = '.' ∨ c ∈ decRender x.b.val ∨ c = '.' ∨
      c ∈ decRender x.c.val ∨ c = '.' ∨ c ∈ decRender x.d.val := by
    simpa [List.mem_append, List.mem_cons, or_assoc] using hc
  rcases hsplit with hc | hc | hc | hc | hc | hc | hc
  · exact decRender_not_ws x.a.val x.a.isLt c hc
  · rw [hc]; decide
  · exact decRender_not_ws x.b.val x.b.isLt c hc
  · rw [hc]; decide
  · exact decRender_not_ws x.c.val x.c.isLt c hc
  · rw [hc]; decide
  · exact decRender_not_ws x.d.val x.d.isLt c hc

theorem groupsRenderTail_not_ws (gs : List Nat) (hb : ∀ g ∈ gs, g < 65536) :
    ∀ c ∈ groupsRenderTail gs, isRustWhitespace c = false := by
  induction gs with
  | nil => simp [groupsRenderTail]
  | cons g gs' ih =>
    intro c hc
    simp only [groupsRenderTail, List.mem_cons, List.mem_append] at hc
    rcases hc with hc | hc | hc
    · rw [hc]; decide
    · exact hexRender_not_ws g (hb g (by simp)) c hc
    · exact ih (fun g' hg' => hb g' (by simp [hg'])) c hc

theorem groupsRender_not_ws (gs : List Nat) (hb : ∀ g ∈ gs, g < 65536) :
    ∀ c ∈ groupsRender gs, isRustWhitespace c = false := by
  cases gs with
  | nil => simp [groupsRender]
  | cons g gs' =>
    intro c hc
    simp only [groupsRender, List.mem_append] at hc
    rcases hc with hc | hc
    · exact hexRender_not_ws g (hb g (by simp)) c hc
    · exact groupsRenderTail_not_ws gs' (fun g' hg' => hb g' (by simp [hg'])) c hc

theorem ipv6Render_not_ws (x : Ipv6Addr) :
    ∀ c ∈ ipv6Render x, isRustWhitespace c = false := by
  obtain ⟨segs, hv⟩ := x
  simp only [ipv6Render]
  by_cases hmap : segs.take 6 = [0, 0, 0, 0, 0, 65535]
  · rw [if_pos hmap]
    intro c hc
    have hg : segs.getD 6 0 < 65536 ∨ segs.getD 6 0 = 0 := by
      by_cases hmem : segs.getD 6 0 ∈ segs
      · exact Or.inl (hv.2 _ hmem)
      · obtain ⟨a0, a1, a2, a3, a4, a5, a6, a7, rfl⟩ := list_eight segs hv.1
        simp [List.getD] at hmem ⊢
    have hk : segs.getD 7 0 < 65536 ∨ segs.getD 7 0 = 0 := by
      by_cases hmem : segs.getD 7 0 ∈ segs
      · exact Or.inl (hv.2 _ hmem)
      · obtain ⟨a0, a1, a2, a3, a4, a5, a6, a7, rfl⟩ := list_eight segs hv.1
        simp [List.getD] at hmem ⊢
    have hg' : segs.getD 6 0 < 65536 := by rcases hg with h | h <;> omega
    have hk' : segs.getD 7 0 < 65536 := by rcases hk with h | h <;> omega
    have hsplit : c ∈ "::ffff:".toList ∨ c ∈ decRender (segs.getD 6 0 / 256) ∨ c = '.' ∨
        c ∈ decRender (segs.getD 6 0 % 256) ∨ c = '.' ∨
        c ∈ decRender (segs.getD 7 0 / 256) ∨ c = '.' ∨
        c ∈ decRender (segs.getD 7 0 % 256) := by
      simpa [List.mem_append, List.mem_cons, or_assoc] using hc
    rcases hsplit with hc | hc | hc | hc | hc | hc | hc | hc
    · have hws : ∀ c' ∈ "::ffff:".toList, isRustWhitespace c' = false := by decide
      exact hws c hc
    · exact decRender_not_ws _ (by omega) c hc
    · rw [hc]; decide
    · exact decRender_not_ws _ (by omega) c hc
    · rw [hc]; decide
    · exact decRender_not_ws _ (by omega) c hc
    · rw [hc]; decide
    · exact decRender_not_ws _ (by omega) c hc
  · rw [if_neg hmap]
    by_cases hl2 : (zeroSpanLoop segs 0 ⟨0, 0⟩ ⟨0, 0⟩).len > 1
    · rw [if_pos hl2]
      intro c hc
      have hsplit : c ∈ groupsRender (segs.take (zeroSpanLoop segs 0 ⟨0, 0⟩ ⟨0, 0⟩).start) ∨
          c = ':' ∨ c = ':' ∨
          c ∈ groupsRender (segs.drop ((zeroSpanLoop segs 0 ⟨0, 0⟩ ⟨0, 0⟩).start +
            (zeroSpanLoop segs 0 ⟨0, 0⟩ ⟨0, 0⟩).len)) := by
        simpa [List.mem_append, List.mem_cons, or_assoc] using hc
      rcases hsplit with hc | hc | hc | hc
      · exact groupsRender_not_ws _ (fun g' hg' => hv.2 g' (List.take_subset _ _ hg')) c hc
      · rw [hc]; decide
      · rw [hc]; decide
      · exact groupsRender_not_ws _ (fun g' hg' => hv.2 g' (List.drop_subset _ _ hg')) c hc
    · rw [if_neg hl2]
      exact groupsRender_not_ws segs hv.2

theorem MyIp_render_not_ws (ip : MyIp) :
    ∀ c ∈ MyIp.render ip, isRustWhitespace c = false := by
  cases ip with
  | V4 x => exact ipv4Render_not_ws x
  | V6 x => exact ipv6Render_not_ws x

theorem decRender_ne_nil (n : Nat) : decRender n ≠ [] := by
  rw [decRender]
  split
  · simp
  · split <;> simp

theorem hexRender_ne_nil (g : Nat) : hexRender g ≠ [] := by
  rw [hexRender]
  split
  · simp
  · split
    · simp
    · split <;> simp

theorem MyIp_render_ne_nil (ip : MyIp) : MyIp.render ip ≠ [] := by
  cases ip with
  | V4 x =>
    simp only [MyIp.render, ipv4Render]
    simp [decRender_ne_nil]
  | V6 x =>
    obtain ⟨segs, hv⟩ := x
    simp only [MyIp.render, ipv6Render]
    by_cases hmap : segs.take 6 = [0, 0, 0, 0, 0, 65535]
    · rw [if_pos hmap]
      have : "::ffff:".toList ≠ [] := by decide
      simp [this]
    · rw [if_neg hmap]
      by_cases hl2 : (zeroSpanLoop segs 0 ⟨0, 0⟩ ⟨0, 0⟩).len > 1
      · rw [if_pos hl2]
        simp
      · rw [if_neg hl2]
        obtain ⟨a0, a1, a2, a3, a4, a5, a6, a7, rfl⟩ := list_eight segs hv.1
        simp [groupsRender, hexRender_ne_nil]

theorem dropWhile_ws_append (w l : List Char)
    (hw : ∀ c ∈ w, isRustWhitespace c = true) :
    (w ++ l).dropWhile (fun c => isRustWhitespace c) =
      l.dropWhile (fun c => isRustWhitespace c) := by
  induction w with
  | nil => rfl
  | cons c w' ih =>
    rw [List.cons_append, List.dropWhile_cons, if_pos (hw c (by simp))]
    exact ih (fun c' hc' => hw c' (by simp [hc']))

theorem dropWhile_no_ws_head (l : List Char)
    (hl : ∀ c, l.head? = some c → isRustWhitespace c = false) :
    l.dropWhile (fun c => isRustWhitespace c) = l := by
  cases l with
  | nil => rfl
  | cons c r =>
    rw [List.dropWhile_cons, if_neg (by simp [hl c rfl])]

theorem rustTrim_wrap (w1 w2 core : List Char)
    (h1 : ∀ c ∈ w1, isRustWhitespace c = true) (h2 : ∀ c ∈ w2, isRustWhitespace c = true)
    (hcw : ∀ c ∈ core, isRustWhitespace c = false) (hne : core ≠ []) :
    rustTrim (String.mk (w1 ++ core ++ w2)) = core := by
  unfold rustTrim
  have htl : (String.mk (w1 ++ core ++ w2)).toList = w1 ++ (core ++ w2) := by
    simp [String.toList]
  rw [htl, dropWhile_ws_append w1 (core ++ w2) h1]
  have hhead : ∀ c, (core ++ w2).head? = some c → isRustWhitespace c = false := by
    intro c hc
    cases core with
    | nil => exact absurd rfl hne
    | cons a r =>
      rw [List.cons_append] at hc
      simp only [List.head?] at hc
      injection hc with hc
      rw [← hc]
      exact hcw a (by simp)
  rw [dropWhile_no_ws_head _ hhead, List.reverse_append,
    dropWhile_ws_append w2.reverse core.reverse
      (fun c hc => h2 c (List.mem_reverse.1 hc))]
  have hlast : ∀ c, core.reverse.head? = some c → isRustWhitespace c = false := by
    intro c hc
    have hmem : c ∈ core.reverse := List.mem_of_mem_head? (by simp [hc])
    exact hcw c (List.mem_reverse.1 hmem)
  rw [dropWhile_no_ws_head core.reverse hlast, List.reverse_reverse]

/-! ## Claim theorems -/

/-- C1: the claim says `igd(false)` prevents `find()` from invoking the
gateway lookup and keeps gateway-derived addresses out of the result.  The
code contradicts it (and its own doc comment "Enable/Disable the use of the
Internet Gateway Device"): `find` never reads the `igd` field, so with
`igd(false)`, a succeeding gateway and all HTTP probes failing, the result
still contains the gateway-derived address. -/
theorem find_invokes_gateway_despite_igd_false :
    (WhatsMyIp.new.igd' false).igd = false ∧
    (WhatsMyIp.new.igd' false).find (.ok (.ok exGwIp))
      [.error "e1", .error "e2", .error "e3", .error "e4"] =
      .ok [MyIp.V4 exGwIp] :=
  ⟨rfl, by decide⟩

/-- C2: for every configuration and every sequence of probe outcomes, a
successful `find` returns a list with no two equal elements. -/
theorem find_result_nodup (w : WhatsMyIp) (gw : GatewayOutcome)
    (outs : List (Except String MyIp)) (l : List MyIp)
    (h : w.find gw outs = .ok l) : l.Nodup := by
  have hc := (find_ok_iff w gw outs l).1 h
  rw [← hc.1]
  exact findCore_nodup w gw outs

/-- Witness for C2 at a concrete run with a duplicate probe outcome. -/
theorem find_result_nodup_witness :
    WhatsMyIp.new.find (.ok (.ok exGwIp))
      [.ok (MyIp.V4 exHttpIp), .error "x", .ok (MyIp.V4 exHttpIp), .error "y"] =
      .ok [MyIp.V4 exGwIp, MyIp.V4 exHttpIp] ∧
    ([MyIp.V4 exGwIp, MyIp.V4 exHttpIp] : List MyIp).Nodup :=
  ⟨by decide, find_result_nodup WhatsMyIp.new (.ok (.ok exGwIp))
    [.ok (MyIp.V4 exHttpIp), .error "x", .ok (MyIp.V4 exHttpIp), .error "y"]
    [MyIp.V4 exGwIp, MyIp.V4 exHttpIp] (by decide)⟩

/-- C3: `find` fails exactly when the accumulated result sequence is empty
after the enabled sources are exhausted, the only error it surfaces is the
aggregate "no address found" error, and a successful result is never
empty. -/
theorem find_error_iff_no_address (w : WhatsMyIp) (gw : GatewayOutcome)
    (outs : List (Except String MyIp)) :
    (∀ e, w.find gw outs = .error e → e = "Unable to find any IP address") ∧
    ((∃ e, w.find gw outs = .error e) ↔ (findCore w gw outs).1 = []) ∧
    (∀ l, w.find gw outs = .ok l → l ≠ []) := by
  refine ⟨?_, ⟨?_, ?_⟩, ?_⟩
  · intro e he
    exact ((find_error_iff w gw outs e).1 he).2
  · rintro ⟨e, he⟩
    exact ((find_error_iff w gw outs e).1 he).1
  · intro hnil
    exact ⟨_, (find_error_iff w gw outs _).2 ⟨hnil, rfl⟩⟩
  · intro l hl
    have hc := (find_ok_iff w gw outs l).1 hl
    rw [← hc.1]
    exact hc.2

/-- Witness for C3: with the gateway failing and all probes failing, the
aggregate error is returned and carries the "no address found" message. -/
theorem find_error_iff_no_address_witness :
    WhatsMyIp.new.find (.error "gw") [.error "a", .error "b", .error "c", .error "d"] =
      .error "Unable to find any IP address" ∧
    "Unable to find any IP address" = "Unable to find any IP address" :=
  ⟨by decide, (find_error_iff_no_address WhatsMyIp.new (.error "gw")
    [.error "a", .error "b", .error "c", .error "d"]).1
    "Unable to find any IP address" (by decide)⟩

/-- C4: with fast mode enabled, a successful gateway lookup returns the
single-element result with zero HTTP probes invoked; with the gateway
failing, `find` returns right after the first successful HTTP probe, never
invoking a subsequent provider. -/
theorem fast_mode_early_exit :
    (∀ (w : WhatsMyIp) (gw : GatewayOutcome) (outs : List (Except String MyIp)) (ip : MyIp),
       w.fast = true → igd_ip gw = some ip →
       w.find gw outs = .ok [ip] ∧ w.httpProbes gw outs = 0) ∧
    (∀ (w : WhatsMyIp) (gw : GatewayOutcome) (pre post : List (Except String MyIp)) (ip : MyIp),
       w.fast = true → igd_ip gw = none → (∀ o ∈ pre, okOf o = none) →
       pre.length < w.http →
       w.find gw (pre ++ .ok ip :: post) = .ok [ip] ∧
         w.httpProbes gw (pre ++ .ok ip :: post) = pre.length + 1) := by
  constructor
  · intro w gw outs ip hf hgw
    have hcore : findCore w gw outs = ([ip], true, 0) := by
      simp [findCore, hgw, hf]
    constructor
    · rw [find_ok_iff, hcore]
      exact ⟨rfl, by simp⟩
    · simp [WhatsMyIp.httpProbes, hcore]
  · intro w gw pre post ip hf hgw hall hlen
    have hh : w.http > 0 := by omega
    have htake : (pre ++ .ok ip :: post).take w.http =
        pre ++ .ok ip :: post.take (w.http - pre.length - 1) := by
      rw [List.take_append_eq_append_take, List.take_of_length_le (by omega)]
      congr 1
      have hstep : w.http - pre.length = (w.http - pre.length - 1) + 1 := by omega
      rw [hstep]
      simp
    have hcore : findCore w gw (pre ++ .ok ip :: post) = ([ip], true, pre.length + 1) := by
      simp only [findCore, hgw, if_pos hh, htake, hf]
      rw [findHttp_fast_first ip _ pre [] hall]
      simp
    constructor
    · rw [find_ok_iff, hcore]
      exact ⟨rfl, by simp⟩
    · simp [WhatsMyIp.httpProbes, hcore]

/-- Witness for C4: both fast-mode exits at concrete runs. -/
theorem fast_mode_early_exit_witness :
    ((WhatsMyIp.new.fast' true).fast = true ∧
      igd_ip (.ok (.ok exGwIp)) = some (MyIp.V4 exGwIp) ∧
      (WhatsMyIp.new.fast' true).find (.ok (.ok exGwIp)) [.error "x"] =
        .ok [MyIp.V4 exGwIp] ∧
      (WhatsMyIp.new.fast' true).httpProbes (.ok (.ok exGwIp)) [.error "x"] = 0) ∧
    (igd_ip (.error "gw") = none ∧
      (WhatsMyIp.new.fast' true).find (.error "gw")
        ([.error "x"] ++ .ok (MyIp.V4 exHttpIp) :: [.error "y", .error "z"]) =
        .ok [MyIp.V4 exHttpIp] ∧
      (WhatsMyIp.new.fast' true).httpProbes (.error "gw")
        ([.error "x"] ++ .ok (MyIp.V4 exHttpIp) :: [.error "y", .error "z"]) = 2) :=
  ⟨⟨by decide, by decide,
    (fast_mode_early_exit.1 (WhatsMyIp.new.fast' true) (.ok (.ok exGwIp)) [.error "x"]
      (MyIp.V4 exGwIp) (by decide) (by decide)).1,
    (fast_mode_early_exit.1 (WhatsMyIp.new.fast' true) (.ok (.ok exGwIp)) [.error "x"]
      (MyIp.V4 exGwIp) (by decide) (by decide)).2⟩,
   ⟨by decide,
    (fast_mode_early_exit.2 (WhatsMyIp.new.fast' true) (.error "gw") [.error "x"]
      [.error "y", .error "z"] (MyIp.V4 exHttpIp)
      (by decide) (by decide) (by decide) (by decide)).1,
    (fast_mode_early_exit.2 (WhatsMyIp.new.fast' true) (.error "gw") [.error "x"]
      [.error "y", .error "z"] (MyIp.V4 exHttpIp)
      (by decide) (by decide) (by decide) (by decide)).2⟩⟩

/-- C5: the stored HTTP limit is always clamped to the registry size (with
`none` resetting to the registry size), and `find` consults at most
`min n |registry|` providers — none at all when the limit is zero. -/
theorem http_limit_clamping :
    (∀ (w : WhatsMyIp) (count : Option Nat),
       (w.http_limit count).http ≤ HTTP_PROVIDERS.length) ∧
    (∀ (w : WhatsMyIp) (n : Nat),
       (w.http_limit (some n)).http = min n HTTP_PROVIDERS.length) ∧
    (∀ (w : WhatsMyIp), (w.http_limit none).http = HTTP_PROVIDERS.length) ∧
    (∀ (w : WhatsMyIp) (n : Nat) (gw : GatewayOutcome) (outs : List (Except String MyIp)),
       outs.length = HTTP_PROVIDERS.length →
       (w.http_limit (some n)).httpProbes gw outs ≤ min n HTTP_PROVIDERS.length) ∧
    (∀ (w : WhatsMyIp) (gw : GatewayOutcome) (outs : List (Except String MyIp)),
       (w.http_limit (some 0)).httpProbes gw outs = 0) := by
  refine ⟨?_, ?_, ?_, ?_, ?_⟩
  · intro w count
    cases count with
    | none => simp [WhatsMyIp.http_limit]
    | some n => simp [WhatsMyIp.http_limit]
  · intro w n
    rfl
  · intro w
    rfl
  · intro w n gw outs hlen
    have hc := findCore_count_le (w.http_limit (some n)) gw outs
    have hh : (w.http_limit (some n)).http = min n HTTP_PROVIDERS.length := rfl
    unfold WhatsMyIp.httpProbes
    rw [hh, hlen] at hc
    omega
  · intro w gw outs
    exact httpProbes_of_http_zero _ _ _ (by rfl)

/-- Witness for C5's conditional part at a concrete oversized limit. -/
theorem http_limit_clamping_witness :
    ([(.error "a"), .error "b", .error "c", .error "d"] :
        List (Except String MyIp)).length = HTTP_PROVIDERS.length ∧
    (WhatsMyIp.new.http_limit (some 7)).httpProbes (.error "gw")
        [.error "a", .error "b", .error "c", .error "d"] ≤
      min 7 HTTP_PROVIDERS.length :=
  ⟨by decide, http_limit_clamping.2.2.2.1 WhatsMyIp.new 7 (.error "gw") _ (by decide)⟩

/-- C7: a probe whose response status is not the success status fails with a
transport error carrying that status, and inside `find`'s HTTP loop a failed
probe is skipped — the loop's value on a failing head outcome is its value on
the remaining outcomes, with only the probe counter advanced. -/
theorem http_probe_failure_skipped :
    (∀ (opts : WhatsMyIp) (url : String) (r : HttpResponse), r.status ≠ 200 →
       http_ip_txt opts url (.ok r) = .error (statusDisplay r.status)) ∧
    (∀ (fast : Bool) (results : List MyIp) (e : String) (rest : List (Except String MyIp)),
       findHttp fast results (.error e :: rest) =
         ((findHttp fast results rest).1, (findHttp fast results rest).2.1,
          (findHttp fast results rest).2.2 + 1)) := by
  constructor
  · intro opts url r hr
    simp [http_ip_txt, hr]
  · intro fast results e rest
    rfl

/-- Witness for C7 at a concrete non-success status. -/
theorem http_probe_failure_skipped_witness :
    (404 ≠ 200) ∧
    http_ip_txt WhatsMyIp.new "http://icanhazip.com"
        (.ok ⟨404, .ok "203.0.113.5"⟩) = .error (statusDisplay 404) :=
  ⟨by decide, http_probe_failure_skipped.1 WhatsMyIp.new "http://icanhazip.com"
    ⟨404, .ok "203.0.113.5"⟩ (by decide)⟩

/-- C8: every successful result list is the gateway-derived address (when
present) followed by the HTTP-derived addresses in the order their probes
succeeded under the shuffled, limited iteration — i.e. the dedup-append of
the successes among the consulted outcomes — and the gateway-derived
addresses form a prefix. -/
theorem find_result_order (w : WhatsMyIp) (gw : GatewayOutcome)
    (outs : List (Except String MyIp)) (l : List MyIp)
    (h : w.find gw outs = .ok l) :
    l = dedupAppend (igd_ip gw).toList
        ((outs.take (w.httpProbes gw outs)).filterMap okOf) ∧
      (igd_ip gw).toList <+: l := by
  have hc := (find_ok_iff w gw outs l).1 h
  have hr := findCore_results w gw outs
  constructor
  · rw [← hc.1]
    exact hr
  · rw [← hc.1, hr]
    exact dedupAppend_prefix _ _

/-- Witness for C8 at a concrete run. -/
theorem find_result_order_witness :
    WhatsMyIp.new.find (.ok (.ok exGwIp))
      [.error "x", .ok (MyIp.V4 exHttpIp), .error "y", .error "z"] =
      .ok [MyIp.V4 exGwIp, MyIp.V4 exHttpIp] ∧
    ([MyIp.V4 exGwIp, MyIp.V4 exHttpIp] =
        dedupAppend (igd_ip (.ok (.ok exGwIp))).toList
          (([(.error "x"), .ok (MyIp.V4 exHttpIp), .error "y", .error "z"].take
            (WhatsMyIp.new.httpProbes (.ok (.ok exGwIp))
              [.error "x", .ok (MyIp.V4 exHttpIp), .error "y", .error "z"])).filterMap okOf) ∧
      (igd_ip (.ok (.ok exGwIp))).toList <+:
        [MyIp.V4 exGwIp, MyIp.V4 exHttpIp]) :=
  ⟨by decide, find_result_order WhatsMyIp.new (.ok (.ok exGwIp))
    [.error "x", .ok (MyIp.V4 exHttpIp), .error "y", .error "z"]
    [MyIp.V4 exGwIp, MyIp.V4 exHttpIp] (by decide)⟩

/-- C10: address equality is variant-sensitive — a `V4` value never equals a
`V6` value — and `find`'s deduplication keeps 1.2.3.4 and its IPv6-mapped
form `::ffff:1.2.3.4` side by side when different sources report them. -/
theorem v4_v6_never_equal :
    (∀ (a : Ipv4Addr) (b : Ipv6Addr), (MyIp.V4 a == MyIp.V6 b) = false) ∧
    WhatsMyIp.new.find (.ok (.ok exHttpIp))
      [.ok (MyIp.V6 exMapped), .error "x", .error "y", .error "z"] =
      .ok [MyIp.V4 exHttpIp, MyIp.V6 exMapped] := by
  constructor
  · intro a b
    rw [beq_eq_false_iff_ne]
    exact fun h => MyIp.noConfusion h
  · decide

/-- C6: on every input, the address parser trims surrounding whitespace,
attempts an IPv4 parse, attempts an IPv6 parse only on IPv4 failure, and on
double failure reports a parse error naming the offending text; concretely,
the body `"  198.51.100.7\n"` parses to the IPv4 address 198.51.100.7. -/
theorem ip_from_str_contract :
    (∀ s : String, ip_from_str s =
      match ipv4FromStr (rustTrim s) with
      | some ip => .ok (MyIp.V4 ip)
      | none =>
        match ipv6FromStr (rustTrim s) with
        | some ip => .ok (MyIp.V6 ip)
        | none => .error ("Invalid IP address " ++ s)) ∧
    ip_from_str "  198.51.100.7\n" = .ok (MyIp.V4 ⟨198, 51, 100, 7⟩) := by
  constructor
  · intro s
    rfl
  · decide

/-- C9: for every IPv4 or IPv6 address, parsing its canonical textual
rendering — optionally surrounded by whitespace — with `ip_from_str`
succeeds and yields that very address, whose textual rendering is the
canonical string (dotted-quad for IPv4, colon-hex with `::` compression and
the mixed IPv4-mapped notation for IPv6). -/
theorem render_parse_round_trip (ip : MyIp) (w1 w2 : List Char)
    (h1 : ∀ c ∈ w1, isRustWhitespace c = true)
    (h2 : ∀ c ∈ w2, isRustWhitespace c = true) :
    ip_from_str (String.mk (w1 ++ MyIp.render ip ++ w2)) = .ok ip := by
  have htrim := rustTrim_wrap w1 w2 (MyIp.render ip) h1 h2
    (MyIp_render_not_ws ip) (MyIp_render_ne_nil ip)
  cases ip with
  | V4 x =>
    simp only [MyIp.render] at htrim
    simp only [ip_from_str, MyIp.render, htrim, ipv4FromStr_render]
  | V6 x =>
    simp only [MyIp.render] at htrim
    simp only [ip_from_str, MyIp.render, htrim,
      ipv4FromStr_none_of_colon (ipv6Render x) (ipv6Render_has_colon x),
      ipv6FromStr_render]

/-- Witness for C9 at the whitespace-surrounded rendering of an IPv6-mapped
address. -/
theorem render_parse_round_trip_witness :
    (∀ c ∈ [' '], isRustWhitespace c = true) ∧
    (∀ c ∈ ['\n'], isRustWhitespace c = true) ∧
    ip_from_str (String.mk ([' '] ++ MyIp.render (MyIp.V6 exMapped) ++ ['\n'])) =
      .ok (MyIp.V6 exMapped) :=
  ⟨by decide, by decide,
    render_parse_round_trip (MyIp.V6 exMapped) [' '] ['\n'] (by decide) (by decide)⟩

end WhatsMyIpModel
